import Mathlib

/-
  Verification development for the cache synchronization and query-resolution
  engine of ietfdata (src/ietfdata/datatracker.py).

  The Python source is shallowly embedded: JSON values become the inductive
  type Val, JSON objects become association lists, the mutable DataTracker
  instance becomes an explicit state record DT, the requests session becomes
  a response oracle (a pure function from the GET sequence number and the
  requested page to a response), and every fallible or crashing code path
  (KeyError, failed assert, sys.exit) is reflected in Option results.
  Deliberate sys.exit(1) aborts inside the page-fetch loop are modelled as a
  Bool result flag (false = fatal), distinct from Option none which marks a
  Python exception or model fuel exhaustion.

  Timestamps are modelled as integer seconds; datetime.timedelta(hours=1)
  becomes 3600.  The retry back-off 1.875 s doubling to 60 s is kept exact by
  measuring time in eighths of a second (15 .. 480).
-/

-- ===================================================================
-- JSON values (the Dict[str, Any] payloads of the datatracker API)

-- Scalar JSON values; the payloads handled by the matcher are scalars or
-- lists of scalars (lists of resource URI strings), so lists are flat.

inductive Scal where
  | s : String → Scal
  | i : Int → Scal
  | null : Scal
deriving DecidableEq, Repr

inductive Val where
  | sc : Scal → Val
  | l  : List Scal → Val
deriving DecidableEq, Repr

def Val.s (x : String) : Val := Val.sc (Scal.s x)

def Val.i (n : Int) : Val := Val.sc (Scal.i n)

def Val.null : Val := Val.sc Scal.null

abbrev Obj := List (String × Val)

-- Association list lookup and in-place update (Python dict semantics:
-- first binding wins, update keeps position, fresh key appended).

def lookupAL {α : Type} : List (String × α) → String → Option α
  | [], _ => none
  | (k0, v0) :: rest, k => if k0 = k then some v0 else lookupAL rest k

def updAL {α : Type} : List (String × α) → String → α → List (String × α)
  | [], k, v => [(k, v)]
  | (k0, v0) :: rest, k, v =>
      if k0 = k then (k, v) :: rest else (k0, v0) :: updAL rest k v

-- Python str(v) for the value kinds that occur in query parameters.
def scalStr : Scal → String
  | Scal.s s => s
  | Scal.i n => toString n
  | Scal.null => "None"

def pyStr : Val → String
  | Val.sc x => scalStr x
  | Val.l xs => "[" ++ String.intercalate ", " (xs.map scalStr) ++ "]"

-- Substring test, shared by the Python operators "x in s" and the
-- parameter-suffix dispatch of _cache_obj_matches ("__gte" in k, ...).
def subIn (needle hay : String) : Bool :=
  hay.toList.tails.any (fun t => needle.toList.isPrefixOf t)

-- Structurally recursive forms of string prefix and suffix tests (the
-- library versions do not reduce inside the kernel).
def startsWithB (s p : String) : Bool := p.toList.isPrefixOf s.toList

def endsWithB (s p : String) : Bool := p.toList.reverse.isPrefixOf s.toList.reverse

-- Python str.split("/"), structurally on the character list:
-- "".split is [""], separators at the ends produce empty segments.
def splitSlash : List Char → List (List Char)
  | [] => [[]]
  | c :: rest =>
      let r := splitSlash rest
      if c = '/' then [] :: r
      else
        match r with
        | h :: t => (c :: h) :: t
        | [] => [[c]]

-- Python item.split("/")[-2]: the numeric id segment of a resource URI
-- string such as "/api/v1/group/group/2161/".  IndexError becomes none.
def idSuffix (s : String) : Option String :=
  let parts := (splitSlash s.toList).map (fun cs => String.mk cs)
  if h : parts.length ≥ 2 then some (parts.get ⟨parts.length - 2, by omega⟩) else none

-- Lexicographic string comparison by code point, as Python compares str.
def chListLt : List Char → List Char → Bool
  | [], [] => false
  | [], _ :: _ => true
  | _ :: _, [] => false
  | x :: xs, y :: ys => if x = y then chListLt xs ys else decide (x < y)

def strLtB (a b : String) : Bool := chListLt a.toList b.toList

def strLeB (a b : String) : Bool := !(chListLt b.toList a.toList)

-- Python comparison operators on the JSON values we model.  Comparisons
-- between incompatible types raise TypeError in Python, hence none.
def pyLt : Val → Val → Option Bool
  | Val.sc (Scal.s a), Val.sc (Scal.s b) => some (strLtB a b)
  | Val.sc (Scal.i a), Val.sc (Scal.i b) => some (decide (a < b))
  | _, _ => none

def pyLe : Val → Val → Option Bool
  | Val.sc (Scal.s a), Val.sc (Scal.s b) => some (strLeB a b)
  | Val.sc (Scal.i a), Val.sc (Scal.i b) => some (decide (a ≤ b))
  | _, _ => none

-- Python membership "v in coll" for the __contains filter.
def pyIn (v coll : Val) : Option Bool :=
  match coll, v with
  | Val.sc (Scal.s hay), Val.sc (Scal.s needle) => some (subIn needle hay)
  | Val.l xs, Val.sc x => some (decide (x ∈ xs))
  | Val.l _, Val.l _ => some false
  | _, _ => none

-- Python int(str): optional sign then decimal digits, ValueError on
-- anything else; int() of an int is itself.
def digitsToNat : List Char → Option Nat → Option Nat
  | [], acc => acc
  | c :: cs, acc =>
      if c.isDigit then
        digitsToNat cs (acc.map (fun a => 10 * a + (c.toNat - 48)))
      else none

def parseIntStr (s : String) : Option Int :=
  match s.toList with
  | [] => none
  | '-' :: [] => none
  | '-' :: cs => (digitsToNat cs (some 0)).map (fun n => -(n : Int))
  | cs => (digitsToNat cs (some 0)).map (fun n => (n : Int))

def parseIntVal : Val → Option Int
  | Val.sc (Scal.i n) => some n
  | Val.sc (Scal.s s) => parseIntStr s
  | _ => none

-- _parent_uri (datatracker.py line 1874): strip the trailing path segment.
-- uri[:-1].rfind("/") with rfind = -1 giving the empty prefix.
def parentUriStr (s : String) : String :=
  String.mk (((s.dropRight 1).toList.reverse.dropWhile (fun c => c ≠ '/')).reverse)

-- str(URI): path, then "?" and the urlencoded parameters in order.
-- Percent-escaping is immaterial to the claims and left out.
structure Uri where
  uri : String
  params : List (String × Val)
deriving DecidableEq, Repr

def renderParams (ps : List (String × Val)) : String :=
  String.intercalate "&" (ps.map (fun kv => kv.1 ++ "=" ++ pyStr kv.2))

def renderUri (u : Uri) : String :=
  if u.params.length > 0 then u.uri ++ "?" ++ renderParams u.params else u.uri

-- ===================================================================
-- Cache hints and cache metadata (datatracker.py lines 1884-1898)

structure CacheHints where
  deref   : List (String × String)
  trim    : List String
  sortBy  : List String
  reverse : Bool
  timed   : Bool
deriving DecidableEq, Repr

-- CacheMetadata.  The partial field of the source is named partFlag here
-- because its source name is a Lean keyword.  The queries field holds the
-- recorded query URIs; the source persists them as rendered strings and
-- compares them by string equality, so the model keeps the structured URI
-- and renders it at each comparison point, which is observationally the
-- same and lets the invariants speak about the parameters of an entry.
structure CacheMetadata where
  created  : Int
  updated  : Int
  partFlag : Bool
  queries  : List Uri
deriving DecidableEq, Repr

def renderedQueries (m : CacheMetadata) : List String :=
  m.queries.map renderUri

-- A slice of the cache-hints registry built in DataTracker.__init__
-- (lines 1933-2004); only entries used by concrete witnesses are listed.
def hintsRegistry : List (String × CacheHints) :=
  [ ("/api/v1/doc/ballotdocevent/", ⟨[("doc", "id")], ["ballot_type", "by"], ["id"], false, true⟩)
  , ("/api/v1/doc/docalias/",       ⟨[], [], ["id"], false, false⟩)
  , ("/api/v1/doc/document/",       ⟨[], ["type", "stream", "group"], ["id"], false, true⟩)
  , ("/api/v1/group/group/",        ⟨[], ["parent", "state"], ["id"], false, true⟩)
  , ("/api/v1/person/person/",      ⟨[], [], ["id"], false, true⟩)
  , ("/api/v1/person/email/",       ⟨[], ["person"], ["address"], false, true⟩) ]

-- ===================================================================
-- DataTracker state.  disk is the object store (one JSON file per object,
-- keyed by the object URI string), mem the in-process lookaside cache,
-- meta the per-type _cache_info.json records, dirs the set of directories
-- created so far.  evs is the observable trace: GETs issued, connection
-- closes, back-off sleeps (in eighths of a second) and bisection skips.

inductive Ev where
  | get (page : Uri)
  | close
  | sleep (eighths : Nat)
  | skip (offset : Int)
deriving DecidableEq, Repr

structure DT where
  disk     : List (String × Obj)
  mem      : List (String × Obj)
  meta     : List (String × CacheMetadata)
  dirs     : List String
  now      : Int
  httpReq  : Nat
  getCount : Nat
  cacheReq : Nat
  cacheHit : Nat
  memReq   : Nat
  memHit   : Nat
  evs      : List Ev
deriving DecidableEq, Repr

-- Responses of the remote API as consumed by the code: a collection page
-- (meta.next, meta.total_count, objects), a single JSON body, or an HTTP
-- error status.  okSingle stands for any 200 body read as one dict.
inductive Resp where
  | ok (next : Option Uri) (total : Int) (objs : List Obj)
  | okSingle (obj : Obj)
  | err (code : Nat)
deriving DecidableEq, Repr

-- The network is an oracle: response to the n-th GET issued (0-based,
-- indexed by getCount) for a given page.  retr abstracts the stateful
-- _retrieve_json used for deref fields during matching: none is a crash,
-- some none a 404, some (some o) the fetched object.
structure Env where
  remote : Nat → Uri → Resp
  retr   : String → Option (Option Obj)
  tbl    : List (String × CacheHints)

-- ===================================================================
-- _rate_limit (lines 2346-2352)

def rateLimit (dt : DT) : DT :=
  let h := dt.httpReq + 1
  { dt with httpReq := h
          , evs := dt.evs ++ (if h % 100 = 0 then [Ev.close] else []) }

-- _cache_load_metadata / _cache_save_metadata (lines 2071-2085), at the
-- state level; the file-system trace of the save is modelled separately
-- below for the atomicity analysis.
def cacheLoadMetadata (dt : DT) (t : String) : Option CacheMetadata :=
  lookupAL dt.meta t

def cacheSaveMetadata (dt : DT) (t : String) (m : CacheMetadata) : DT :=
  { dt with meta := updAL dt.meta t m }

-- mkdir(parents=True): the directory and all its ancestors come to exist.
def addDirs : Nat → String → List String → List String
  | 0, _, ds => ds
  | n + 1, s, ds =>
      if s = "" then ds
      else addDirs n (parentUriStr s) (if ds.contains s then ds else ds ++ [s])

-- _cache_create (lines 2088-2097)
def cacheCreate (dt : DT) (t : String) : DT :=
  let dt := if dt.dirs.contains t then dt
            else { dt with dirs := addDirs (t.length + 1) t dt.dirs }
  if (lookupAL dt.meta t).isSome then dt
  else cacheSaveMetadata dt t ⟨dt.now, dt.now, true, []⟩

-- _cache_record_query (lines 2100-2115).  The asserts of the source become
-- none on failure.
def stripTimeParams (ps : List (String × Val)) : List (String × Val) :=
  ps.filter (fun kv => kv.1 != "time__gte" && kv.1 != "time__lt")

def cacheRecordQuery (dt : DT) (objUri : Uri) (t : String) : Option DT :=
  if subIn "?" objUri.uri then none
  else if ¬ objUri.params.all (fun kv => kv.2 != Val.null) then none
  else
    match cacheLoadMetadata dt t with
    | none => none
    | some m =>
        if m.partFlag then
          let cu : Uri := ⟨objUri.uri, stripTimeParams objUri.params⟩
          if (renderedQueries m).contains (renderUri cu) then some dt
          else some (cacheSaveMetadata dt t { m with queries := m.queries ++ [cu] })
        else some dt

-- _memcache_* (lines 2027-2037) are inlined below.

-- _cache_has_all_objects (lines 2159-2161)
def cacheHasAllObjects (dt : DT) (t : String) : Option Bool :=
  (cacheLoadMetadata dt t).map (fun m => !m.partFlag)

-- _cache_has_objects (lines 2164-2166)
def cacheHasObjects (dt : DT) (u : Uri) (t : String) : Option Bool :=
  (cacheLoadMetadata dt t).map (fun m => (renderedQueries m).contains (renderUri u))

-- _cache_has_object (lines 2118-2129)
def cacheHasObject (dt : DT) (u : Uri) : Option Bool :=
  if (lookupAL dt.mem u.uri).isSome then some true
  else if (lookupAL dt.disk u.uri).isSome then some true
  else (cacheLoadMetadata dt (parentUriStr u.uri)).map (fun m => !m.partFlag)

-- _cache_get_object (lines 2132-2145)
def cacheGetObject (dt : DT) (u : Uri) : Option Obj × DT :=
  let dt := { dt with memReq := dt.memReq + 1 }
  match lookupAL dt.mem u.uri with
  | some o => (some o, { dt with memHit := dt.memHit + 1 })
  | none =>
      match lookupAL dt.disk u.uri with
      | some o => (some o, { dt with mem := updAL dt.mem u.uri o })
      | none => (none, dt)

-- _cache_put_object (lines 2148-2156)
def cachePutObject (dt : DT) (uriStr : String) (obj : Obj) : Option DT :=
  if ¬ (startsWithB uriStr "/" && endsWithB uriStr "/") then none
  else
    let dt := if dt.dirs.contains (parentUriStr uriStr) then dt
              else cacheCreate dt (parentUriStr uriStr)
    some { dt with disk := updAL dt.disk uriStr obj
                 , mem := updAL dt.mem uriStr obj }

-- ===================================================================
-- _cache_obj_matches (lines 2169-2238): the local predicate evaluator.
-- The stateful _retrieve_json used for deref fields is abstracted by the
-- resolver in Env.retr.  Option none is a crash (KeyError on a missing
-- object field, sys.exit on an unexpected value type, a failed deref).

-- The trim loop: for item in obj[k]: tail = item.split("/")[-2]; ...
def trimLoop (v : Val) : List Scal → Option Bool
  | [] => some false
  | Scal.s item :: rest =>
      match idSuffix item with
      | none => none
      | some tail => if pyStr v = tail then some true else trimLoop v rest
  | _ :: _ => none

-- The deref loop over a list-valued reference field.
def derefLoop (retr : String → Option (Option Obj)) (fld : String) (v : Val) :
    List Scal → Option Bool
  | [] => some false
  | Scal.s item :: rest =>
      match retr item with
      | none => none
      | some none => derefLoop retr fld v rest
      | some (some d) =>
          match lookupAL d fld with
          | none => none
          | some dv => if v = dv then some true else derefLoop retr fld v rest
  | _ :: _ => none

def matchParam (retr : String → Option (Option Obj)) (h : CacheHints)
    (obj : Obj) (k : String) (v : Val) : Option Bool :=
  if h.trim.contains k then
    match lookupAL obj k with
    | none => none
    | some (Val.sc Scal.null) => some false
    | some (Val.l items) => trimLoop v items
    | some (Val.sc (Scal.s s)) =>
        match idSuffix s with
        | none => none
        | some tail => some (pyStr v = tail)
    | some (Val.sc (Scal.i _)) => none
  else if (h.deref.map Prod.fst).contains k then
    match lookupAL h.deref k with
    | none => none
    | some fld =>
      match lookupAL obj k with
      | none => none
      | some (Val.sc Scal.null) => some false
      | some (Val.l items) => derefLoop retr fld v items
      | some (Val.sc (Scal.s s)) =>
          match retr s with
          | none => none
          | some none => some false
          | some (some d) =>
              match lookupAL d fld with
              | none => none
              | some dv => some (v = dv)
      | some (Val.sc (Scal.i _)) => none
  else if subIn "__contains" k then
    match lookupAL obj (k.dropRight 10) with
    | none => none
    | some ov => pyIn v ov
  else if subIn "__gte" k then
    match lookupAL obj (k.dropRight 5) with
    | none => none
    | some ov => (pyLt ov v).map (fun b => !b)
  else if subIn "__gt" k then
    match lookupAL obj (k.dropRight 4) with
    | none => none
    | some ov => (pyLe ov v).map (fun b => !b)
  else if subIn "__lte" k then
    match lookupAL obj (k.dropRight 5) with
    | none => none
    | some ov => (pyLt v ov).map (fun b => !b)
  else if subIn "__lt" k then
    match lookupAL obj (k.dropRight 4) with
    | none => none
    | some ov => (pyLe v ov).map (fun b => !b)
  else
    match lookupAL obj k with
    | none => none
    | some ov => some (ov = v)

-- The res flag of the source keeps being carried through later parameters
-- even after it has become False, so a later crash still surfaces.
def matchFold (retr : String → Option (Option Obj)) (h : CacheHints) (obj : Obj) :
    List (String × Val) → Bool → Option Bool
  | [], res => some res
  | (k, v) :: rest, res =>
      if v = Val.null then matchFold retr h obj rest res
      else
        match matchParam retr h obj k v with
        | none => none
        | some c => matchFold retr h obj rest (res && c)

def cacheObjMatches (env : Env) (obj : Obj) (queryUri : Uri) : Option Bool :=
  match lookupAL env.tbl queryUri.uri with
  | none => none
  | some h => matchFold env.retr h obj queryUri.params true

-- ===================================================================
-- _cache_get_objects (lines 2241-2260): scan the object files of a type,
-- filter with the evaluator, sort by the padded sort key.  The glob
-- enumeration order (unspecified at the OS level) is modelled as the disk
-- list order.  The per-file URI reconstruction obj_type_uri + name + "/"
-- is the inverse of the key layout, so the scan keeps exactly the keys
-- whose parent URI is the type URI.

-- F" {value:40}": strings pad right, numbers pad left, None raises.
def fmt40 : Val → Option String
  | Val.sc (Scal.s s) => some (s ++ String.mk (List.replicate (40 - s.length) ' '))
  | Val.sc (Scal.i n) =>
      some (String.mk (List.replicate (40 - (toString n).length) ' ') ++ toString n)
  | _ => none

def sortKeyOf (h : CacheHints) (obj : Obj) : Option String :=
  h.sortBy.foldl
    (fun acc sb => acc.bind (fun s =>
      (lookupAL obj sb).bind (fun v => (fmt40 v).map (fun f => s ++ " " ++ f))))
    (some "")

def scanLoop (env : Env) (h : CacheHints) (queryUri : Uri) :
    List String → DT → List (String × Obj) → Option (List (String × Obj) × DT)
  | [], dt, acc => some (acc, dt)
  | k :: rest, dt, acc =>
      let (o?, dt) := cacheGetObject dt ⟨k, []⟩
      match o? with
      | none => none
      | some o =>
          match cacheObjMatches env o queryUri with
          | none => none
          | some true =>
              match sortKeyOf h o with
              | none => none
              | some sk => scanLoop env h queryUri rest dt (acc ++ [(sk, o)])
          | some false => scanLoop env h queryUri rest dt acc

-- Python list.sort is stable; reverse=True sorts as if every comparison
-- were reversed, keeping the original order of equal keys.  A stable
-- sort is extensionally unique, so the structurally recursive stable
-- insertion sort below is the same function as the timsort of CPython.
def insertStable {α : Type} (le : α → α → Bool) (x : α) : List α → List α
  | [] => [x]
  | y :: ys => if le x y then x :: y :: ys else y :: insertStable le x ys

def sortStable {α : Type} (le : α → α → Bool) : List α → List α
  | [] => []
  | x :: xs => insertStable le x (sortStable le xs)

def sortResults (rev : Bool) (rs : List (String × Obj)) : List (String × Obj) :=
  if rev then sortStable (fun a b => strLeB b.1 a.1) rs
  else sortStable (fun a b => strLeB a.1 b.1) rs

def cacheGetObjects (env : Env) (dt : DT) (queryUri : Uri) (t : String) :
    Option (List Obj × DT) :=
  match lookupAL env.tbl t with
  | none => none
  | some h =>
      let keys := (dt.disk.map Prod.fst).filter (fun k => parentUriStr k = t)
      match scanLoop env h queryUri keys dt [] with
      | none => none
      | some (rs, dt) => some ((sortResults h.reverse rs).map Prod.snd, dt)

-- ===================================================================
-- _cache_put_objects (lines 2263-2340): the paginated fetch loop with
-- exponential back-off on 500 and bisection recovery on 400.
--
-- Pages are kept structured (path plus ordered query parameters); the
-- source renders them to a URL and parses them back with urlsplit and
-- parse_qs during recovery, and parse_qs wraps every parsed value in a
-- singleton list of strings, which wrapQs reproduces.  The retry_time
-- 1.875 doubling with bound 60 is measured in eighths of a second
-- (15 doubling with bound 480).  The Bool of the result is true for a
-- completed fetch and false for a sys.exit(1) fatal abort; none is a
-- Python exception or exhausted model fuel.

def baseUrl : String := "https://datatracker.ietf.org"

def wrapQs (ps : List (String × Val)) : List (String × Val) :=
  ps.map (fun kv => (kv.1, Val.l [Scal.s (pyStr kv.2)]))

def putList (dt : DT) : List Obj → Option DT
  | [] => some dt
  | o :: rest =>
      match lookupAL o "resource_uri" with
      | some (Val.sc (Scal.s k)) => (cachePutObject dt k o).bind (fun dt => putList dt rest)
      | _ => none

inductive BRes where
  | done (failed : Bool) (dt : DT)
  | fatalStop (dt : DT)
deriving DecidableEq, Repr

-- The recovery loop: one limit=1 request per offset in the failed range.
-- Each recovered body is written under URI(split.path), the collection
-- path itself, exactly as the source does (line 2321).
def bisect (remote : Nat → Uri → Resp) (basePath : String) (qs : List (String × Val)) :
    List Int → Bool → DT → Option BRes
  | [], failed, dt => some (BRes.done failed dt)
  | i :: rest, failed, dt =>
      let itemPage : Uri :=
        ⟨baseUrl ++ basePath, updAL (updAL qs "offset" (Val.i i)) "limit" (Val.i 1)⟩
      let idx := dt.getCount
      let dt := { dt with getCount := dt.getCount + 1 }
      let dt := rateLimit dt
      let dt := { dt with evs := dt.evs ++ [Ev.get itemPage] }
      match remote idx itemPage with
      | Resp.okSingle o =>
          match cachePutObject dt basePath o with
          | none => none
          | some dt => bisect remote basePath qs rest false dt
      | Resp.err 400 =>
          bisect remote basePath qs rest failed { dt with evs := dt.evs ++ [Ev.skip i] }
      | _ => some (BRes.fatalStop dt)

def putLoop (remote : Nat → Uri → Resp) :
    Nat → Option Uri → Option Int → Option Nat → DT → Option (Bool × DT)
  | 0, _, _, _, _ => none
  | _ + 1, none, _, _, dt => some (true, dt)
  | fuel + 1, some page, total, none, dt =>
      putLoop remote fuel (some page) total (some 15) (rateLimit dt)
  | fuel + 1, some page, total, some rt, dt =>
      let idx := dt.getCount
      let dt := { dt with getCount := dt.getCount + 1, evs := dt.evs ++ [Ev.get page] }
      match remote idx page with
      | Resp.ok next tot objs =>
          match putList dt objs with
          | none => none
          | some dt => putLoop remote fuel next (some tot) none dt
      | Resp.okSingle _ => none
      | Resp.err 500 =>
          if rt > 480 then some (false, dt)
          else putLoop remote fuel (some page) total (some (2 * rt))
                 { dt with evs := dt.evs ++ [Ev.close, Ev.sleep rt] }
      | Resp.err 400 =>
          match total with
          | none => some (false, dt)
          | some tot =>
              match (lookupAL page.params "offset").bind parseIntVal with
              | none => none
              | some off =>
                  let fin := if off < tot then off + 100 else tot
                  let qs := wrapQs page.params
                  let offsets := (List.range (fin - off).toNat).map (fun j => off + j)
                  match bisect remote page.uri qs offsets true dt with
                  | none => none
                  | some (BRes.fatalStop dt) => some (false, dt)
                  | some (BRes.done failed dt) =>
                      if failed then some (false, dt)
                      else putLoop remote fuel
                             (some ⟨page.uri, updAL (updAL qs "offset" (Val.i fin)) "limit" (Val.i 100)⟩)
                             total none dt
      | Resp.err _ => some (false, dt)

-- Entry point of _cache_put_objects: inject limit=100 ahead of the query
-- parameters.  The obj_type_uri parameter of the source is unused there.
def cachePutObjects (remote : Nat → Uri → Resp) (fuel : Nat) (objUri : Uri) (dt : DT) :
    Option (Bool × DT) :=
  putLoop remote fuel (some ⟨objUri.uri, ("limit", Val.i 100) :: objUri.params⟩) none none dt

-- ===================================================================
-- _retrieve_json (lines 2355-2376): single-object fetch-or-serve.

def retrieveJson (env : Env) (dt : DT) (u : Uri) : Option (Option Obj × DT) :=
  let dt := { dt with cacheReq := dt.cacheReq + 1 }
  match cacheHasObject dt u with
  | none => none
  | some true =>
      let dt := { dt with cacheHit := dt.cacheHit + 1 }
      some (cacheGetObject dt u)
  | some false =>
      let dt := rateLimit dt
      let idx := dt.getCount
      let dt := { dt with getCount := dt.getCount + 1
                        , evs := dt.evs ++ [Ev.get ⟨u.uri, u.params⟩] }
      match env.remote idx ⟨u.uri, u.params⟩ with
      | Resp.okSingle o =>
          (cachePutObject dt u.uri o).bind (fun dt =>
            (cacheRecordQuery dt u (parentUriStr u.uri)).map (fun dt => (some o, dt)))
      | Resp.err 404 => some (none, dt)
      | _ => none

-- ===================================================================
-- _cache_update (lines 2040-2068): promotion to a full cache and the
-- hourly incremental refresh.  strftime is modelled by fmtTime, an
-- opaque injective rendering of the timestamp.

def fmtTime (n : Int) : String := toString n

def cacheUpdate (env : Env) (fuel : Nat) (t : String) (dt : DT) : Option DT :=
  let dt := cacheCreate dt t
  match cacheLoadMetadata dt t with
  | none => none
  | some m0 =>
      let promoted : Option (DT × CacheMetadata) :=
        if m0.partFlag && m0.queries.length > 100 then
          match cachePutObjects env.remote fuel ⟨t, []⟩ dt with
          | some (true, dt) =>
              match cacheLoadMetadata dt t with
              | none => none
              | some m1 =>
                  let m2 := { m1 with partFlag := false, queries := [], updated := dt.now }
                  some (cacheSaveMetadata dt t m2, m2)
          | _ => none
        else some (dt, m0)
      match promoted with
      | none => none
      | some (dt, m) =>
          if dt.now - m.updated > 3600 then
            match lookupAL env.tbl t with
            | none => none
            | some h =>
                if h.timed then
                  let upd : Uri :=
                    ⟨t, [("time__gte", Val.s (fmtTime m.updated)), ("time__lt", Val.s (fmtTime dt.now))]⟩
                  match cachePutObjects env.remote fuel upd dt with
                  | some (true, dt) =>
                      match cacheLoadMetadata dt t with
                      | none => none
                      | some m1 => some (cacheSaveMetadata dt t { m1 with updated := dt.now })
                  | _ => none
                else some dt
          else some dt

-- ===================================================================
-- _retrieve (lines 2380-2386) and _retrieve_multi (lines 2389-2410).
-- The pavlova decoding JSON to a typed object is the identity here.

def retrieve (env : Env) (fuel : Nat) (u : Uri) (dt : DT) : Option (Option Obj × DT) :=
  (cacheUpdate env fuel (parentUriStr u.uri) dt).bind (fun dt => retrieveJson env dt u)

def retrieveMulti (env : Env) (fuel : Nat) (u : Uri) (dt : DT) : Option (List Obj × DT) :=
  if ¬ u.params.all (fun kv => kv.2 != Val.null) then none
  else
    let t := u.uri
    let cu : Uri := ⟨u.uri, stripTimeParams u.params⟩
    let dt := cacheCreate dt t
    let dt := { dt with cacheReq := dt.cacheReq + 1 }
    match cacheHasObjects dt cu t, cacheHasAllObjects dt t with
    | some b1, some b2 =>
        if b1 || b2 then
          let dt := { dt with cacheHit := dt.cacheHit + 1 }
          (cacheUpdate env fuel t dt).bind (fun dt => cacheGetObjects env dt u t)
        else
          match cachePutObjects env.remote fuel cu dt with
          | some (true, dt) =>
              (cacheRecordQuery dt cu t).bind (fun dt => cacheGetObjects env dt u t)
          | _ => none
    | _, _ => none

-- ===================================================================
-- File-system level model of _cache_save_metadata (lines 2077-2085),
-- for the atomicity analysis: open(path, "w") truncates the file in
-- place, json.dump then writes the serialized record.  No temporary
-- file and no rename appear in the source.

inductive FsOp where
  | openW (path : String)
  | writeAll (path : String) (content : String)
  | rename (src dst : String)
deriving DecidableEq, Repr

def serializeMeta (m : CacheMetadata) : String :=
  "\x7b\"created\": " ++ toString m.created ++ ", \"updated\": " ++ toString m.updated ++
  ", \"partial\": " ++ (if m.partFlag then "true" else "false") ++
  ", \"queries\": [" ++ String.intercalate ", " ((renderedQueries m).map (fun q => "\"" ++ q ++ "\"")) ++
  "]\x7d"

def metaPath (cacheDir t : String) : String :=
  cacheDir ++ "/" ++ (t.drop 1).dropRight 1 ++ "/_cache_info.json"

def cacheSaveMetadataFs (cacheDir t : String) (m : CacheMetadata) : List FsOp :=
  [FsOp.openW (metaPath cacheDir t), FsOp.writeAll (metaPath cacheDir t) (serializeMeta m)]

def fsApply (fs : String → Option String) : FsOp → String → Option String
  | FsOp.openW p => fun q => if q = p then some "" else fs q
  | FsOp.writeAll p c => fun q => if q = p then some c else fs q
  | FsOp.rename src dst => fun q =>
      if q = src then none else if q = dst then fs src else fs q

-- The sequence of contents observable at path p after each operation.
def obsAt (p : String) (fs : String → Option String) : List FsOp → List (Option String)
  | [] => []
  | op :: rest =>
      let fs1 := fsApply fs op
      fs1 p :: obsAt p fs1 rest

def fsWriteTarget : FsOp → Option String
  | FsOp.openW p => some p
  | FsOp.writeAll p _ => some p
  | FsOp.rename _ _ => none

-- The write-temp-then-rename discipline the specification ascribes to
-- save: the destination path is never opened or written directly, and
-- the trace ends with a rename of some other path onto it.
def atomicReplace (tr : List FsOp) (p : String) : Bool :=
  (tr.all (fun op => fsWriteTarget op != some p)) &&
  (match tr.getLast? with
   | some (FsOp.rename src dst) => dst == p && src != p
   | _ => false)

-- ===================================================================
-- Auxiliary definitions used by the theorems.

-- Memcache consistency: every lookaside entry agrees with the disk copy.
def MemCons (dt : DT) : Prop :=
  ∀ k o, lookupAL dt.mem k = some o → lookupAL dt.disk k = some o

-- A reference computation of the scan-filter-sort answer as a pure
-- function of the disk contents, used to compare the two branches of
-- _retrieve_multi.
def pureScan (env : Env) (h : CacheHints) (q : Uri) (disk : List (String × Obj)) :
    List String → Option (List (String × Obj))
  | [] => some []
  | k :: rest =>
      match lookupAL disk k with
      | none => none
      | some o =>
          match cacheObjMatches env o q with
          | none => none
          | some true =>
              (sortKeyOf h o).bind (fun sk =>
                (pureScan env h q disk rest).map (fun rs => (sk, o) :: rs))
          | some false => pureScan env h q disk rest

def pureGetObjects (env : Env) (disk : List (String × Obj)) (q : Uri) (t : String) :
    Option (List Obj) :=
  match lookupAL env.tbl t with
  | none => none
  | some h =>
      let keys := (disk.map Prod.fst).filter (fun k => parentUriStr k = t)
      (pureScan env h q disk keys).map (fun rs => (sortResults h.reverse rs).map Prod.snd)

-- An oracle whose every response is a collection page all of whose
-- objects are already stored identically on disk (the replay situation
-- of the query-answer equivalence property).
def OkNoop (remote : Nat → Uri → Resp) (disk0 : List (String × Obj))
    (dirs0 : List String) : Prop :=
  ∀ i p, match remote i p with
    | Resp.ok _ _ objs =>
        ∀ o ∈ objs, ∃ k, lookupAL o "resource_uri" = some (Val.sc (Scal.s k)) ∧
          startsWithB k "/" = true ∧ endsWithB k "/" = true ∧
          lookupAL disk0 k = some o ∧ dirs0.contains (parentUriStr k) = true
    | _ => False

-- The metadata shape invariant of claim C10.
def MetaInv (m : CacheMetadata) : Prop :=
  (m.partFlag = false → m.queries = []) ∧
  (renderedQueries m).Nodup ∧
  ∀ q ∈ m.queries, ∀ kv ∈ q.params, kv.1 ≠ "time__gte" ∧ kv.1 ≠ "time__lt"

def MetaInvAll (dt : DT) : Prop :=
  ∀ t m, lookupAL dt.meta t = some m → MetaInv m

-- States reachable through the public operations of the DataTracker:
-- a fresh instance, a single-object retrieval, a query, and the passage
-- of wall-clock time between calls.
inductive Reach : DT → Prop where
  | base (now : Int) : Reach ⟨[], [], [], [], now, 0, 0, 0, 0, 0, 0, []⟩
  | tick {dt : DT} (n : Int) : Reach dt → Reach { dt with now := n }
  | stepOne {dt dt' : DT} {o : Option Obj} (env : Env) (fuel : Nat) (u : Uri) :
      Reach dt → retrieve env fuel u dt = some (o, dt') → Reach dt'
  | stepMulti {dt dt' : DT} {os : List Obj} (env : Env) (fuel : Nat) (u : Uri) :
      Reach dt → retrieveMulti env fuel u dt = some (os, dt') → Reach dt'

-- ===================================================================
-- The per-parameter clause semantics exactly as claim C6 words it:
-- dispatch to a relational comparison when the field name ENDS with a
-- recognized suffix, otherwise exact equality; trim and deref as in the
-- evaluator.  This is the claimed behaviour, kept separate from the
-- matchParam transcription of the source for comparison.
def claimClause (retr : String → Option (Option Obj)) (h : CacheHints)
    (obj : Obj) (k : String) (v : Val) : Option Bool :=
  if h.trim.contains k then
    match lookupAL obj k with
    | none => none
    | some (Val.sc Scal.null) => some false
    | some (Val.l items) => trimLoop v items
    | some (Val.sc (Scal.s s)) =>
        match idSuffix s with
        | none => none
        | some tail => some (pyStr v = tail)
    | some (Val.sc (Scal.i _)) => none
  else if (h.deref.map Prod.fst).contains k then
    match lookupAL h.deref k with
    | none => none
    | some fld =>
      match lookupAL obj k with
      | none => none
      | some (Val.sc Scal.null) => some false
      | some (Val.l items) => derefLoop retr fld v items
      | some (Val.sc (Scal.s s)) =>
          match retr s with
          | none => none
          | some none => some false
          | some (some d) =>
              match lookupAL d fld with
              | none => none
              | some dv => some (v = dv)
      | some (Val.sc (Scal.i _)) => none
  else if endsWithB k "__contains" then
    match lookupAL obj (k.dropRight 10) with
    | none => none
    | some ov => pyIn v ov
  else if endsWithB k "__gte" then
    match lookupAL obj (k.dropRight 5) with
    | none => none
    | some ov => (pyLt ov v).map (fun b => !b)
  else if endsWithB k "__gt" then
    match lookupAL obj (k.dropRight 4) with
    | none => none
    | some ov => (pyLe ov v).map (fun b => !b)
  else if endsWithB k "__lte" then
    match lookupAL obj (k.dropRight 5) with
    | none => none
    | some ov => (pyLt v ov).map (fun b => !b)
  else if endsWithB k "__lt" then
    match lookupAL obj (k.dropRight 4) with
    | none => none
    | some ov => (pyLe v ov).map (fun b => !b)
  else
    match lookupAL obj k with
    | none => none
    | some ov => some (ov = v)

-- ===================================================================
-- Concrete fixtures used by counterexamples and witnesses.

def personT : String := "/api/v1/person/person/"

def c2item (i : Int) : Obj :=
  [("resource_uri", Val.s (personT ++ toString i ++ "/")), ("id", Val.i i)]

def c2page2 : Uri := ⟨personT, [("limit", Val.i 100), ("offset", Val.i 100)]⟩

-- A remote with 200 records whose page at offsets 100..199 rejects the
-- range request with 400, while every record of the range except the one
-- at offset 153 can be fetched individually.
def c2remote : Nat → Uri → Resp := fun _ page =>
  if page.uri = baseUrl ++ personT then
    match lookupAL page.params "offset" with
    | some (Val.sc (Scal.i i)) => if i = 153 then Resp.err 400 else Resp.okSingle (c2item i)
    | _ => Resp.err 500
  else
    match lookupAL page.params "offset" with
    | none => Resp.ok (some c2page2) 200 []
    | some (Val.sc (Scal.i 100)) => Resp.err 400
    | _ => Resp.ok none 200 []

def c2dt0 : DT :=
  ⟨[], [], [], ["/api/v1/person/", personT], 0, 0, 0, 0, 0, 0, 0, []⟩

def groupT : String := "/api/v1/group/group/"

def c5dt : DT :=
  ⟨[], [], [(groupT, ⟨0, 0, false, []⟩)], ["/api/v1/group/", groupT], 7200,
   0, 0, 0, 0, 0, 0, []⟩

def emptyEnv : Env := ⟨fun _ _ => Resp.ok none 0 [], fun _ => none, hintsRegistry⟩

def c8dt : DT :=
  ⟨[], [], [(personT, ⟨0, 0, true, []⟩)], ["/api/v1/person/", personT], 7200,
   0, 0, 0, 0, 0, 0, []⟩

-- A field name is suffix-clean when each relational marker occurs in it
-- only as its terminal suffix, in the sense the dispatch order of the
-- evaluator makes relevant (__gt inside a terminal __gte and __lt inside
-- a terminal __lte are harmless because the longer suffix is checked
-- first).  Real datatracker field names satisfy this.
def suffixClean (k : String) : Prop :=
  subIn "__contains" k = endsWithB k "__contains" ∧
  subIn "__gte" k = endsWithB k "__gte" ∧
  (subIn "__gte" k = false → subIn "__gt" k = endsWithB k "__gt") ∧
  subIn "__lte" k = endsWithB k "__lte" ∧
  (subIn "__lte" k = false → subIn "__lt" k = endsWithB k "__lt")

instance (k : String) : Decidable (suffixClean k) := by
  unfold suffixClean; infer_instance

-- Fixtures for the evaluator claims: a field name that merely contains
-- a relational marker, and the crafted objects of the specification.

def c6obj : Obj := [("a__gtb", Val.s "5"), ("a_", Val.s "1")]

def c6q : Uri := ⟨"/api/v1/doc/docalias/", [("a__gtb", Val.s "5")]⟩

def c6wObj : Obj :=
  [("group", Val.s "/type/2161/"), ("time", Val.s "2020-01-01T00:00:00"), ("id", Val.i 1)]

def c6wQ : Uri :=
  ⟨"/api/v1/doc/document/", [("group", Val.i 2161), ("time__gte", Val.s "2019-01-01T00:00:00")]⟩



-- Effect contracts used by the preservation proofs.

def MetaExt (dt dt' : DT) : Prop :=
  ∀ t m, lookupAL dt.meta t = some m → lookupAL dt'.meta t = some m

def bresDT : BRes → DT
  | BRes.done _ d => d
  | BRes.fatalStop d => d

-- Common effect contract of the object-writing functions: existing
-- metadata records are preserved exactly, new ones satisfy the shape
-- invariant, the clock does not move, events are only appended.

def StepOk (dt dt' : DT) : Prop :=
  MetaExt dt dt' ∧ (MetaInvAll dt → MetaInvAll dt') ∧ dt'.now = dt.now ∧
  dt.evs <+: dt'.evs

def RecOk (dt dt' : DT) : Prop :=
  (∀ t m, lookupAL dt.meta t = some m → ∃ m', lookupAL dt'.meta t = some m' ∧
     m'.partFlag = m.partFlag ∧ m'.updated = m.updated ∧ m'.created = m.created) ∧
  (MetaInvAll dt → MetaInvAll dt') ∧ dt'.now = dt.now ∧ dt.evs <+: dt'.evs

def UpOk (dt dt' : DT) : Prop :=
  (∀ t m, lookupAL dt.meta t = some m → ∃ m', lookupAL dt'.meta t = some m' ∧
     (m.partFlag = false → m'.partFlag = false)) ∧
  (MetaInvAll dt → MetaInvAll dt') ∧ dt'.now = dt.now ∧ dt.evs <+: dt'.evs

def c10wState : DT :=
  ⟨[], [],
   [("/api/v1/doc/docalias/", ⟨0, 0, true, [⟨"/api/v1/doc/docalias/", [("name", Val.s "x")]⟩]⟩)],
   ["/api/v1/doc/docalias/", "/api/v1/doc/", "/api/v1/", "/api/", "/"],
   0, 1, 1, 1, 0, 0, 0,
   [Ev.get ⟨"/api/v1/doc/docalias/", [("limit", Val.i 100), ("name", Val.s "x")]⟩]⟩

def c8wState : DT :=
  ⟨[], [], [(groupT, ⟨0, 7200, false, []⟩)], ["/api/v1/group/", groupT], 7200,
   1, 1, 0, 0, 0, 0,
   [Ev.get ⟨groupT, [("limit", Val.i 100), ("time__gte", Val.s "0"),
     ("time__lt", Val.s "7200")]⟩]⟩

-- ===================================================================
-- ===================================================================
-- Fixture for the C1 query-answer equivalence witness: the docalias
-- type (no trim, no deref, sort by id, not timed), one object on disk
-- keyed by its own URI, its parameterless collection query recorded in
-- the metadata, and a remote that re-delivers that same object.

def c1t : String := "/api/v1/doc/docalias/"

def c1obj : Obj :=
  [("resource_uri", Val.sc (Scal.s "/api/v1/doc/docalias/1/")), ("id", Val.sc (Scal.i 1))]

def c1u : Uri := ⟨c1t, []⟩

def c1m : CacheMetadata := ⟨0, 0, true, [⟨c1t, []⟩]⟩

def c1dt : DT :=
  ⟨[("/api/v1/doc/docalias/1/", c1obj)], [], [(c1t, c1m)], [c1t], 0, 0, 0, 0, 0, 0, 0, []⟩

def c1remote : Nat → Uri → Resp := fun _ _ => Resp.ok none 1 [c1obj]

def c1env : Env := ⟨c1remote, fun _ => none, hintsRegistry⟩

-- Theorems.

set_option maxRecDepth 8000

/-- C3: under a remote that persistently answers HTTP 500, the fetch loop
    of _cache_put_objects retries the same page after sleeping intervals
    that start at 1.875 s (15 eighths) and double after each consecutive
    failure, and aborts as fatal once the back-off would exceed the 60 s
    bound (480 eighths): exactly 7 attempts of the same page, sleeps of
    15, 30, 60, 120, 240 and 480 eighths, then the fatal stop, for any
    fuel at least 8, so the loop never retries indefinitely; objects
    already written from earlier pages (the disk d) and the cache
    metadata mt are untouched. -/
theorem c3_backoff_termination (d : List (String × Obj)) (mt : List (String × CacheMetadata))
    (page : Uri) (k : Nat) :
    putLoop (fun _ _ => Resp.err 500) (k + 8) (some page) none none
      ⟨d, [], mt, [], 0, 0, 0, 0, 0, 0, 0, []⟩ =
    some (false, ⟨d, [], mt, [], 0, 1, 7, 0, 0, 0, 0,
      [Ev.get page, Ev.close, Ev.sleep 15, Ev.get page, Ev.close, Ev.sleep 30,
       Ev.get page, Ev.close, Ev.sleep 60, Ev.get page, Ev.close, Ev.sleep 120,
       Ev.get page, Ev.close, Ev.sleep 240, Ev.get page, Ev.close, Ev.sleep 480,
       Ev.get page]⟩) := by
  rfl

/-- C2 (code bug): the bisection recovery run on a remote whose page at
    offsets 100..199 fails with 400 while only the record at offset 153
    fails individually.  The fetch completes, skips exactly offset 153,
    and resumes pagination at offset 200 as the claim says, but every
    recovered object is written under URI(split.path), the collection
    path itself, each write overwriting the previous one: the final
    object store holds a single entry keyed by the collection path
    (containing the last recovered record, offset 199), and no recovered
    object is stored under its own URI (offset 101 shown). -/
theorem c2_bisection_stores_under_collection_path :
    (cachePutObjects c2remote 10 ⟨personT, []⟩ c2dt0).map (fun r =>
      (r.1, r.2.disk,
       r.2.evs.filter (fun e => match e with | Ev.skip _ => true | _ => false),
       r.2.evs.getLast?,
       lookupAL r.2.disk (personT ++ "101/"))) =
    some (true, [(personT, c2item 199)],
          [Ev.skip 153],
          some (Ev.get ⟨personT, [("limit", Val.i 100), ("offset", Val.i 200)]⟩),
          none) := by
  rfl

/-- C4 (code bug): a page whose first GET answers 500 and whose retry
    answers 200.  The loop issues two GETs for the page but _rate_limit
    runs only once, before the first attempt: the retry GET after the
    back-off sleep is issued without invoking the rate limiter, so the
    global request counter httpReq ends at 1 while two GETs were issued,
    contradicting the claim (and the comment of _rate_limit) that the
    limiter runs before every outbound GET. -/
theorem c4_retry_get_bypasses_rate_limiter :
    putLoop (fun i _ => if i = 0 then Resp.err 500 else Resp.ok none 0 [])
      10 (some ⟨personT, [("limit", Val.i 100)]⟩) none none c2dt0 =
    some (true,
      { c2dt0 with
          httpReq := 1
          getCount := 2
          evs := [Ev.get ⟨personT, [("limit", Val.i 100)]⟩, Ev.close, Ev.sleep 15,
                  Ev.get ⟨personT, [("limit", Val.i 100)]⟩] }) := by
  rfl

/-- C7 (counterexample): the claim says _cache_save_metadata writes a
    temporary file and renames it into place, never writing the metadata
    path directly.  The file-system trace of the source for a concrete
    save refutes this: the trace opens and writes the metadata path
    itself and contains no rename. -/
theorem c7_counterexample :
    atomicReplace (cacheSaveMetadataFs "cache" groupT ⟨0, 0, true, []⟩)
      (metaPath "cache" groupT) = false := by
  rfl

/-- C7 (amended): _cache_save_metadata writes the serialized record
    directly to the metadata path: open(path, "w") first truncates the
    file, json.dump then writes the content, and no rename occurs; a
    concurrent reader of the path can therefore observe the truncated
    (empty) intermediate state before the new content appears. -/
theorem c7_save_is_direct_truncate_then_write (cacheDir t : String) (m : CacheMetadata)
    (fs0 : String → Option String) :
    obsAt (metaPath cacheDir t) fs0 (cacheSaveMetadataFs cacheDir t m) =
      [some "", some (serializeMeta m)] ∧
    (cacheSaveMetadataFs cacheDir t m).all
      (fun op => match op with | FsOp.rename _ _ => false | _ => true) = true := by
  constructor
  · simp [obsAt, fsApply, cacheSaveMetadataFs, metaPath]
  · rfl

-- The res flag of _cache_obj_matches folded over the query parameters
-- yields true exactly when the flag started true and every non-null
-- parameter clause evaluates to true (a crash in any clause, even after
-- the flag has become false, surfaces as none and is excluded).
theorem matchFold_true_iff (retr : String → Option (Option Obj)) (h : CacheHints)
    (obj : Obj) (ps : List (String × Val)) (res : Bool) :
    matchFold retr h obj ps res = some true ↔
    (res = true ∧ ∀ kv ∈ ps, kv.2 ≠ Val.null → matchParam retr h obj kv.1 kv.2 = some true) := by
  induction ps generalizing res with
  | nil => simp [matchFold]
  | cons kv rest ih =>
      obtain ⟨k, v⟩ := kv
      by_cases hv : v = Val.null
      · subst hv
        have hstep : matchFold retr h obj ((k, Val.null) :: rest) res =
            matchFold retr h obj rest res := by
          simp [matchFold]
        rw [hstep, ih]
        constructor
        · rintro ⟨hr, hall⟩
          refine ⟨hr, ?_⟩
          intro kv1 hmem hnull
          rcases List.mem_cons.mp hmem with heq | hmem2
          · subst heq; exact absurd rfl hnull
          · exact hall kv1 hmem2 hnull
        · rintro ⟨hr, hall⟩
          exact ⟨hr, fun kv1 hmem hnull => hall kv1 (List.mem_cons_of_mem _ hmem) hnull⟩
      · have hstep : matchFold retr h obj ((k, v) :: rest) res =
            (match matchParam retr h obj k v with
             | none => none
             | some c => matchFold retr h obj rest (res && c)) := by
          simp [matchFold, hv]
        rw [hstep]
        cases hmp : matchParam retr h obj k v with
        | none =>
            simp only [hmp]
            constructor
            · intro hcon; exact Option.noConfusion hcon
            · rintro ⟨hr, hall⟩
              have h1 : matchParam retr h obj k v = some true :=
                hall (k, v) (List.mem_cons_self _ _) hv
              rw [hmp] at h1
              exact Option.noConfusion h1
        | some c =>
            simp only [hmp]
            rw [ih]
            constructor
            · rintro ⟨hrc, hall⟩
              rw [Bool.and_eq_true] at hrc
              obtain ⟨hr, hc⟩ := hrc
              refine ⟨hr, ?_⟩
              intro kv1 hmem hnull
              rcases List.mem_cons.mp hmem with heq | hmem2
              · subst heq; rw [hmp, hc]
              · exact hall kv1 hmem2 hnull
            · rintro ⟨hr, hall⟩
              have hc : c = true := by
                have h1 : matchParam retr h obj k v = some true :=
                  hall (k, v) (List.mem_cons_self _ _) hv
                rw [hmp] at h1
                exact Option.some.inj h1
              subst hr; subst hc
              exact ⟨rfl, fun kv1 hmem hnull => hall kv1 (List.mem_cons_of_mem _ hmem) hnull⟩

-- For suffix-clean field names the substring dispatch of the source
-- coincides with the ends-with dispatch of the specification.
theorem matchParam_eq_claimClause (retr : String → Option (Option Obj)) (h : CacheHints)
    (obj : Obj) (k : String) (v : Val) (hk : suffixClean k) :
    matchParam retr h obj k v = claimClause retr h obj k v := by
  obtain ⟨h1, h2, h3, h4, h5⟩ := hk
  unfold matchParam claimClause
  rw [h1, h2, h4]
  by_cases hgte : endsWithB k "__gte"
  · simp [hgte]
  · have h3e := h3 (by rw [h2]; exact Bool.of_not_eq_true hgte)
    rw [h3e]
    by_cases hlte : endsWithB k "__lte"
    · simp [hlte]
    · have h5e := h5 (by rw [h4]; exact Bool.of_not_eq_true hlte)
      rw [h5e]

/-- C6 (counterexample): the claim routes a filter parameter to a
    relational comparison only when its field name ends with a suffix,
    and to exact equality otherwise.  The field name a__gtb merely
    contains __gt, so per the claim it is an equality test, which the
    object satisfies; the evaluator of the source dispatches on substring
    containment, strips four characters to the unrelated base field a_,
    and rejects the object. -/
theorem c6_counterexample :
    cacheObjMatches emptyEnv c6obj c6q = some false ∧
    (∀ kv ∈ c6q.params, kv.2 ≠ Val.null →
      claimClause emptyEnv.retr ⟨[], [], ["id"], false, false⟩ c6obj kv.1 kv.2 = some true) := by
  constructor
  · rfl
  · decide

/-- C6 (amended): for every cached object and query URI whose parameter
    names are suffix-clean (each relational marker occurs only as the
    terminal suffix), the evaluator returns true if and only if every
    individual filter clause holds, with the clause semantics exactly as
    the claim words them: trim by the numeric id suffix of the URI (any
    element for list fields), deref by fetching the referenced object and
    comparing the named remote field, a terminal relational suffix by the
    corresponding comparison on the suffix-stripped base field, and exact
    equality otherwise.  For field names that are not suffix-clean the
    source dispatches on substring containment instead (see the
    counterexample). -/
theorem c6_evaluator_correct (env : Env) (obj : Obj) (q : Uri) (h : CacheHints)
    (htbl : lookupAL env.tbl q.uri = some h)
    (hsfx : ∀ kv ∈ q.params, suffixClean kv.1) :
    cacheObjMatches env obj q = some true ↔
    ∀ kv ∈ q.params, kv.2 ≠ Val.null → claimClause env.retr h obj kv.1 kv.2 = some true := by
  simp only [cacheObjMatches, htbl]
  rw [matchFold_true_iff]
  constructor
  · rintro ⟨-, hall⟩
    intro kv hmem hnull
    rw [← matchParam_eq_claimClause env.retr h obj kv.1 kv.2 (hsfx kv hmem)]
    exact hall kv hmem hnull
  · intro hall
    refine ⟨rfl, ?_⟩
    intro kv hmem hnull
    rw [matchParam_eq_claimClause env.retr h obj kv.1 kv.2 (hsfx kv hmem)]
    exact hall kv hmem hnull

/-- C6 (witness): the crafted object of the specification, with a trim
    match group=2161 against a group URI /type/2161/ and a time__gte
    range filter satisfied by its time field, is accepted by the
    evaluator, via the amended characterization. -/
theorem c6_witness :
    cacheObjMatches emptyEnv c6wObj c6wQ = some true :=
  (c6_evaluator_correct emptyEnv c6wObj c6wQ ⟨[], ["type", "stream", "group"], ["id"], false, true⟩
    rfl (by decide)).mpr (by decide)


theorem lookupAL_updAL_self {α : Type} (l : List (String × α)) (k : String) (v : α) :
    lookupAL (updAL l k v) k = some v := by
  induction l with
  | nil => simp [updAL, lookupAL]
  | cons kv rest ih =>
      obtain ⟨k0, v0⟩ := kv
      by_cases hk : k0 = k
      · subst hk; simp [updAL, lookupAL]
      · simp [updAL, lookupAL, hk, ih]

theorem lookupAL_updAL_ne {α : Type} (l : List (String × α)) (k k' : String) (v : α)
    (h : k ≠ k') : lookupAL (updAL l k v) k' = lookupAL l k' := by
  induction l with
  | nil => simp [updAL, lookupAL, h]
  | cons kv rest ih =>
      obtain ⟨k0, v0⟩ := kv
      by_cases hk : k0 = k
      · subst hk; simp [updAL, lookupAL, h]
      · simp [updAL, lookupAL, hk, ih]

/-- C9: for a single-object URI that is not in the cache (no memcache
    entry, no disk file, owning type known but partial), _retrieve_json
    consults the remote; on HTTP 404 it returns absence (None) and writes
    nothing: object store, lookaside cache and metadata are exactly as
    before; on HTTP 200 it stores the object under the requested URI and
    records the query (stripped of time-range parameters) in the owning
    type metadata before returning the object. -/
theorem c9_notfound_is_absence (env : Env) (dt : DT) (u : Uri) (m : CacheMetadata) (o : Obj)
    (hmem : lookupAL dt.mem u.uri = none)
    (hdisk : lookupAL dt.disk u.uri = none)
    (hmeta : lookupAL dt.meta (parentUriStr u.uri) = some m)
    (hpart : m.partFlag = true)
    (hslash : (startsWithB u.uri "/" && endsWithB u.uri "/") = true)
    (hq : subIn "?" u.uri = false)
    (hnn : u.params.all (fun kv => kv.2 != Val.null) = true)
    (hdir : dt.dirs.contains (parentUriStr u.uri) = true) :
    (env.remote dt.getCount ⟨u.uri, u.params⟩ = Resp.err 404 →
      ∃ dtf, retrieveJson env dt u = some (none, dtf) ∧
        dtf.disk = dt.disk ∧ dtf.mem = dt.mem ∧ dtf.meta = dt.meta) ∧
    (env.remote dt.getCount ⟨u.uri, u.params⟩ = Resp.okSingle o →
      ∃ dtf, retrieveJson env dt u = some (some o, dtf) ∧
        lookupAL dtf.disk u.uri = some o ∧
        ∃ m', lookupAL dtf.meta (parentUriStr u.uri) = some m' ∧
          (renderedQueries m').contains
            (renderUri ⟨u.uri, stripTimeParams u.params⟩) = true) := by
  constructor
  · intro hrem
    simp [retrieveJson, cacheHasObject, cacheLoadMetadata, rateLimit, hmem, hdisk, hmeta,
      hpart, hrem]
  · intro hrem
    have hdir2 : parentUriStr u.uri ∈ dt.dirs := by simpa using hdir
    by_cases hrec : renderUri ⟨u.uri, stripTimeParams u.params⟩ ∈ renderedQueries m
    · simp [retrieveJson, cacheHasObject, cacheLoadMetadata, rateLimit, hmem, hdisk, hmeta,
        hpart, hrem, cachePutObject, hslash, hdir2, cacheRecordQuery, hq, hnn, hrec,
        lookupAL_updAL_self]
    · simp [retrieveJson, cacheHasObject, cacheLoadMetadata, rateLimit, hmem, hdisk, hmeta,
        hpart, hrem, cachePutObject, hslash, hdir2, cacheRecordQuery, hq, hnn, hrec,
        lookupAL_updAL_self, cacheSaveMetadata]
      simp [renderedQueries]


/-- C9 (witness): a concrete empty partial cache of the person type and
    a remote answering 404: the fetch returns absence with store and
    metadata untouched. -/
theorem c9_witness :
    ∃ dtf, retrieveJson ⟨fun _ _ => Resp.err 404, fun _ => none, hintsRegistry⟩
        ⟨[], [], [(personT, ⟨0, 0, true, []⟩)], ["/api/v1/person/", personT],
         0, 0, 0, 0, 0, 0, 0, []⟩
        ⟨"/api/v1/person/person/20209/", []⟩ = some (none, dtf) ∧
      dtf.disk = [] ∧ dtf.mem = [] ∧ dtf.meta = [(personT, ⟨0, 0, true, []⟩)] :=
  (c9_notfound_is_absence ⟨fun _ _ => Resp.err 404, fun _ => none, hintsRegistry⟩
    ⟨[], [], [(personT, ⟨0, 0, true, []⟩)], ["/api/v1/person/", personT],
     0, 0, 0, 0, 0, 0, 0, []⟩
    ⟨"/api/v1/person/person/20209/", []⟩ ⟨0, 0, true, []⟩ []
    rfl rfl rfl rfl rfl rfl rfl rfl).1 rfl


-- Exact preservation of existing metadata records: the function may add
-- records for types that had none, but never alters an existing one.

theorem metaExt_trans {a b c : DT} (h1 : MetaExt a b) (h2 : MetaExt b c) : MetaExt a c :=
  fun t m h => h2 t m (h1 t m h)

-- One-equation characterization of _cache_create.

theorem cacheCreate_eq (dt : DT) (t0 : String) :
    cacheCreate dt t0 =
      { dt with
          dirs := if dt.dirs.contains t0 then dt.dirs else addDirs (t0.length + 1) t0 dt.dirs
          meta := if (lookupAL dt.meta t0).isSome then dt.meta
                  else updAL dt.meta t0 ⟨dt.now, dt.now, true, []⟩ } := by
  unfold cacheCreate cacheSaveMetadata
  by_cases hc : dt.dirs.contains t0 = true
  · rw [if_pos hc, if_pos hc]
    by_cases hs : (lookupAL dt.meta t0).isSome = true
    · rw [if_pos hs, if_pos hs]
    · rw [if_neg hs, if_neg hs]
  · rw [if_neg hc, if_neg hc]
    by_cases hs : (lookupAL dt.meta t0).isSome = true
    · rw [if_pos hs, if_pos hs]
    · rw [if_neg hs, if_neg hs]

theorem stepOk_rfl (dt : DT) : StepOk dt dt :=
  ⟨fun _ _ h => h, id, rfl, List.prefix_rfl⟩

theorem stepOk_trans {a b c : DT} (h1 : StepOk a b) (h2 : StepOk b c) : StepOk a c := by
  obtain ⟨m1, i1, n1, e1⟩ := h1
  obtain ⟨m2, i2, n2, e2⟩ := h2
  exact ⟨metaExt_trans m1 m2, fun h => i2 (i1 h), n2.trans n1, e1.trans e2⟩

theorem stepOk_of_eq {dt dt' : DT} (hmeta : dt'.meta = dt.meta) (hnow : dt'.now = dt.now)
    (hevs : dt.evs <+: dt'.evs) : StepOk dt dt' := by
  refine ⟨?_, ?_, hnow, hevs⟩
  · intro t m hm; rw [hmeta]; exact hm
  · intro hinv t m hm; rw [hmeta] at hm; exact hinv t m hm

theorem cacheCreate_stepOk (dt : DT) (t0 : String) : StepOk dt (cacheCreate dt t0) := by
  rw [cacheCreate_eq]
  by_cases hs : (lookupAL dt.meta t0).isSome = true
  · refine ⟨?_, ?_, rfl, List.prefix_rfl⟩
    · intro t m hm
      simpa [hs] using hm
    · intro hinv t m hm
      simp only [hs, if_true] at hm
      exact hinv t m hm
  · have hnone : lookupAL dt.meta t0 = none := by
      cases h0 : lookupAL dt.meta t0
      · rfl
      · rw [h0] at hs; exact absurd rfl hs
    refine ⟨?_, ?_, rfl, List.prefix_rfl⟩
    · intro t m hm
      have hne : t0 ≠ t := fun heq => by rw [heq, hm] at hnone; cases hnone
      simpa [hs, lookupAL_updAL_ne _ _ _ _ hne] using hm
    · intro hinv t m hm
      simp only [hs] at hm
      rw [if_neg Bool.false_ne_true] at hm
      by_cases hne : t0 = t
      · subst hne
        rw [lookupAL_updAL_self] at hm
        cases hm
        simp [MetaInv, renderedQueries]
      · rw [lookupAL_updAL_ne _ _ _ _ hne] at hm
        exact hinv t m hm

theorem cachePutObject_stepOk {dt dt' : DT} {k : String} {o : Obj}
    (h : cachePutObject dt k o = some dt') : StepOk dt dt' := by
  unfold cachePutObject at h
  by_cases hv : (startsWithB k "/" && endsWithB k "/") = true
  · rw [if_neg (by simp [hv])] at h
    by_cases hd : dt.dirs.contains (parentUriStr k) = true
    · rw [if_pos hd] at h
      cases h
      exact ⟨fun _ _ hm => hm, fun hinv => hinv, rfl, List.prefix_rfl⟩
    · rw [if_neg hd] at h
      cases h
      obtain ⟨me, iv, nw, suf, ev⟩ := cacheCreate_stepOk dt (parentUriStr k)
      exact ⟨me, iv, nw, suf, ev⟩
  · rw [if_pos (by simp [hv])] at h
    cases h

theorem rateLimit_stepOk (dt : DT) : StepOk dt (rateLimit dt) :=
  ⟨fun _ _ h => h, fun h => h, rfl, List.prefix_append _ _⟩

theorem putList_stepOk {objs : List Obj} : ∀ {dt dt' : DT},
    putList dt objs = some dt' → StepOk dt dt' := by
  induction objs with
  | nil =>
      intro dt dt' h
      unfold putList at h
      cases h
      exact stepOk_rfl dt
  | cons o rest ih =>
      intro dt dt' h
      unfold putList at h
      cases hru : lookupAL o "resource_uri" with
      | none => rw [hru] at h; cases h
      | some v =>
          rw [hru] at h
          match v, h with
          | Val.sc (Scal.s k), h =>
              have h2 : (cachePutObject dt k o).bind (fun dtx => putList dtx rest) = some dt' := h
              cases hpo : cachePutObject dt k o with
              | none => rw [hpo] at h2; cases h2
              | some dt1 =>
                  rw [hpo] at h2
                  exact stepOk_trans (cachePutObject_stepOk hpo) (ih h2)
          | Val.sc (Scal.i _), h => cases h
          | Val.sc Scal.null, h => cases h
          | Val.l _, h => cases h

theorem bisect_stepOk {remote : Nat → Uri → Resp} {bp : String} {qs : List (String × Val)} :
    ∀ {offs : List Int} {f : Bool} {dt : DT} {r : BRes},
      bisect remote bp qs offs f dt = some r → StepOk dt (bresDT r) := by
  intro offs
  induction offs with
  | nil =>
      intro f dt r h
      unfold bisect at h
      cases h
      exact stepOk_rfl dt
  | cons i rest ih =>
      intro f dt r h
      unfold bisect at h
      simp only [] at h
      split at h
      case _ o heq =>
        split at h
        case _ hpo => cases h
        case _ dtc hpo =>
          refine stepOk_trans ?_ (stepOk_trans (cachePutObject_stepOk hpo) (ih h))
          exact ⟨fun _ _ hx => hx, fun hx => hx, rfl,
            (List.prefix_append _ _).trans (List.prefix_append _ _)⟩
      case _ heq =>
        refine stepOk_trans ?_ (ih h)
        exact ⟨fun _ _ hx => hx, fun hx => hx, rfl,
          ((List.prefix_append _ _).trans (List.prefix_append _ _)).trans
            (List.prefix_append _ _)⟩
      case _ heq1 heq2 =>
        cases h
        exact ⟨fun _ _ hx => hx, fun hx => hx, rfl,
          (List.prefix_append _ _).trans (List.prefix_append _ _)⟩

theorem putLoop_stepOk {remote : Nat → Uri → Resp} : ∀ {fuel : Nat} {pg : Option Uri}
    {tot : Option Int} {rt : Option Nat} {dt : DT} {b : Bool} {dt' : DT},
    putLoop remote fuel pg tot rt dt = some (b, dt') → StepOk dt dt' := by
  intro fuel
  induction fuel with
  | zero => intro pg tot rt dt b dt' h; cases h
  | succ fuel ih =>
      intro pg tot rt dt b dt' h
      match pg with
      | none =>
          unfold putLoop at h
          cases h
          exact stepOk_rfl dt
      | some page =>
          match rt with
          | none =>
              unfold putLoop at h
              exact stepOk_trans (rateLimit_stepOk dt) (ih h)
          | some rtv =>
              unfold putLoop at h
              simp only [] at h
              split at h
              case _ next tot2 objs heq =>
                split at h
                case _ hpl => cases h
                case _ dt2 hpl =>
                  refine stepOk_trans ?_ (stepOk_trans (putList_stepOk hpl) (ih h))
                  exact ⟨fun _ _ hx => hx, fun hx => hx, rfl, List.prefix_append _ _⟩
              case _ o heq => cases h
              case _ heq =>
                split at h
                · cases h
                  exact ⟨fun _ _ hx => hx, fun hx => hx, rfl, List.prefix_append _ _⟩
                · refine stepOk_trans ?_ (ih h)
                  exact ⟨fun _ _ hx => hx, fun hx => hx, rfl,
                    (List.prefix_append _ _).trans (List.prefix_append _ _)⟩
              case _ heq =>
                split at h
                case _ =>
                  cases h
                  exact ⟨fun _ _ hx => hx, fun hx => hx, rfl, List.prefix_append _ _⟩
                case _ tot2 =>
                  split at h
                  case _ hoff => cases h
                  case _ off hoff =>
                    split at h
                    next hbis => cases h
                    next dtb hbis =>
                      cases h
                      refine stepOk_trans ?_ (bisect_stepOk hbis)
                      exact ⟨fun _ _ hx => hx, fun hx => hx, rfl, List.prefix_append _ _⟩
                    next failed dtb hbis =>
                      by_cases hf : failed = true
                      · rw [if_pos hf] at h
                        cases h
                        refine stepOk_trans ?_ (bisect_stepOk hbis)
                        exact ⟨fun _ _ hx => hx, fun hx => hx, rfl, List.prefix_append _ _⟩
                      · rw [if_neg hf] at h
                        refine stepOk_trans ?_ (stepOk_trans (bisect_stepOk hbis) (ih h))
                        exact ⟨fun _ _ hx => hx, fun hx => hx, rfl, List.prefix_append _ _⟩
              case _ code hne1 hne2 hne3 =>
                cases h
                exact ⟨fun _ _ hx => hx, fun hx => hx, rfl, List.prefix_append _ _⟩

-- Contract of _cache_record_query: existing records keep their flag and
-- timestamps (only the queries list may grow), the shape invariant is
-- preserved, no time passes and no events are emitted.

theorem stepOk_recOk {dt dt' : DT} (h : StepOk dt dt') : RecOk dt dt' := by
  obtain ⟨me, iv, nw, ev⟩ := h
  exact ⟨fun t m hm => ⟨m, me t m hm, rfl, rfl, rfl⟩, iv, nw, ev⟩

theorem recOk_rfl (dt : DT) : RecOk dt dt := stepOk_recOk (stepOk_rfl dt)

theorem recOk_trans {a b c : DT} (h1 : RecOk a b) (h2 : RecOk b c) : RecOk a c := by
  obtain ⟨m1, i1, n1, e1⟩ := h1
  obtain ⟨m2, i2, n2, e2⟩ := h2
  refine ⟨?_, fun h => i2 (i1 h), n2.trans n1, e1.trans e2⟩
  intro t m hm
  obtain ⟨ma, hma, fa, ua, ca⟩ := m1 t m hm
  obtain ⟨mb, hmb, fb, ub, cb⟩ := m2 t ma hma
  exact ⟨mb, hmb, fb.trans fa, ub.trans ua, cb.trans ca⟩

theorem stripTimeParams_no_time (ps : List (String × Val)) :
    ∀ kv ∈ stripTimeParams ps, kv.1 ≠ "time__gte" ∧ kv.1 ≠ "time__lt" := by
  intro kv hkv
  unfold stripTimeParams at hkv
  have := List.of_mem_filter hkv
  simp only [Bool.and_eq_true, bne_iff_ne] at this
  exact this

theorem cacheRecordQuery_recOk {dt dt' : DT} {u : Uri} {t0 : String}
    (h : cacheRecordQuery dt u t0 = some dt') : RecOk dt dt' := by
  unfold cacheRecordQuery at h
  by_cases hq : subIn "?" u.uri = true
  · rw [if_pos hq] at h; cases h
  · rw [if_neg hq] at h
    by_cases hnn : (u.params.all fun kv => kv.2 != Val.null) = true
    · rw [if_neg (by simp [hnn])] at h
      cases hload : cacheLoadMetadata dt t0 with
      | none => rw [hload] at h; cases h
      | some m =>
          rw [hload] at h
          simp only [] at h
          by_cases hpf : m.partFlag = true
          · rw [if_pos hpf] at h
            by_cases hrec : (renderedQueries m).contains
                (renderUri ⟨u.uri, stripTimeParams u.params⟩) = true
            · rw [if_pos hrec] at h
              cases h
              exact recOk_rfl dt
            · rw [if_neg hrec] at h
              cases h
              unfold cacheLoadMetadata at hload
              refine ⟨?_, ?_, rfl, List.prefix_rfl⟩
              · intro t m1 hm1
                by_cases hte : t0 = t
                · subst hte
                  rw [hload] at hm1
                  cases hm1
                  exact ⟨{ m with queries :=
                      m.queries ++ [⟨u.uri, stripTimeParams u.params⟩] },
                    by simp [cacheSaveMetadata, lookupAL_updAL_self], rfl, rfl, rfl⟩
                · exact ⟨m1, by
                    simpa [cacheSaveMetadata, lookupAL_updAL_ne _ _ _ _ hte] using hm1,
                    rfl, rfl, rfl⟩
              · intro hinv t m1 hm1
                simp only [cacheSaveMetadata] at hm1
                by_cases hte : t0 = t
                · subst hte
                  rw [lookupAL_updAL_self] at hm1
                  cases hm1
                  obtain ⟨i1, i2, i3⟩ := hinv t0 m hload
                  refine ⟨fun hc => ?_, ?_, ?_⟩
                  · rw [hpf] at hc; cases hc
                  · have hnm : renderUri ⟨u.uri, stripTimeParams u.params⟩ ∉
                        renderedQueries m := by simpa using hrec
                    simp only [renderedQueries, List.map_append, List.map_cons,
                      List.map_nil] at i2 hnm ⊢
                    refine List.nodup_append.mpr ⟨i2, List.nodup_singleton _, ?_⟩
                    intro x hx hx2
                    rw [List.mem_singleton] at hx2
                    subst hx2
                    exact hnm hx
                  · intro q hq1 kv hkv
                    rcases List.mem_append.mp hq1 with hq2 | hq2
                    · exact i3 q hq2 kv hkv
                    · rcases List.mem_singleton.mp hq2 with rfl
                      exact stripTimeParams_no_time u.params kv hkv
                · rw [lookupAL_updAL_ne _ _ _ _ hte] at hm1
                  exact hinv t m1 hm1
          · rw [if_neg hpf] at h
            cases h
            exact recOk_rfl dt
    · rw [if_pos (by simp [hnn])] at h
      cases h

-- Contract of _cache_update: the partial flag of an existing record never
-- reverts from false to true, the shape invariant is preserved, the clock
-- stands still, events are only appended.

theorem recOk_upOk {dt dt' : DT} (h : RecOk dt dt') : UpOk dt dt' := by
  obtain ⟨me, iv, nw, ev⟩ := h
  refine ⟨?_, iv, nw, ev⟩
  intro t m hm
  obtain ⟨m', hm', hf, _, _⟩ := me t m hm
  exact ⟨m', hm', fun hc => by rw [hf, hc]⟩

theorem stepOk_upOk {dt dt' : DT} (h : StepOk dt dt') : UpOk dt dt' :=
  recOk_upOk (stepOk_recOk h)

theorem upOk_trans {a b c : DT} (h1 : UpOk a b) (h2 : UpOk b c) : UpOk a c := by
  obtain ⟨m1, i1, n1, e1⟩ := h1
  obtain ⟨m2, i2, n2, e2⟩ := h2
  refine ⟨?_, fun h => i2 (i1 h), n2.trans n1, e1.trans e2⟩
  intro t m hm
  obtain ⟨ma, hma, fa⟩ := m1 t m hm
  obtain ⟨mb, hmb, fb⟩ := m2 t ma hma
  exact ⟨mb, hmb, fun hc => fb (fa hc)⟩

-- Saving a record for type t0 whose flag is false and queries are empty,
-- or a flag-and-queries-preserving update of an existing record, keeps
-- UpOk.  Specialized helper for the two saves of _cache_update.

theorem save_upOk {dt : DT} {t0 : String} {m2 : CacheMetadata}
    (hinv2 : MetaInvAll dt → MetaInv m2)
    (hflag : ∀ m, lookupAL dt.meta t0 = some m → m.partFlag = false → m2.partFlag = false) :
    UpOk dt (cacheSaveMetadata dt t0 m2) := by
  refine ⟨?_, ?_, rfl, List.prefix_rfl⟩
  · intro t m hm
    by_cases hte : t0 = t
    · subst hte
      exact ⟨m2, by simp [cacheSaveMetadata, lookupAL_updAL_self], hflag m hm⟩
    · exact ⟨m, by simpa [cacheSaveMetadata, lookupAL_updAL_ne _ _ _ _ hte] using hm,
        fun hc => hc⟩
  · intro hinv t m hm
    simp only [cacheSaveMetadata] at hm
    by_cases hte : t0 = t
    · subst hte
      rw [lookupAL_updAL_self] at hm
      cases hm
      exact hinv2 hinv
    · rw [lookupAL_updAL_ne _ _ _ _ hte] at hm
      exact hinv t m hm

theorem cacheUpdate_upOk {env : Env} {fuel : Nat} {t0 : String} {dt dt' : DT}
    (h : cacheUpdate env fuel t0 dt = some dt') : UpOk dt dt' := by
  unfold cacheUpdate at h
  simp only [] at h
  have hcreate : UpOk dt (cacheCreate dt t0) := stepOk_upOk (cacheCreate_stepOk dt t0)
  set dtc := cacheCreate dt t0 with hdtc
  refine upOk_trans hcreate ?_
  cases hload : cacheLoadMetadata dtc t0 with
  | none => rw [hload] at h; cases h
  | some m0 =>
      rw [hload] at h
      simp only [] at h
      by_cases hprom : (m0.partFlag && decide (m0.queries.length > 100)) = true
      · rw [if_pos hprom] at h
        cases hput : cachePutObjects env.remote fuel ⟨t0, []⟩ dtc with
        | none => rw [hput] at h; cases h
        | some r =>
            rw [hput] at h
            obtain ⟨bput, dt2⟩ := r
            by_cases hb : bput = true
            · subst hb
              simp only [] at h
              cases hload2 : cacheLoadMetadata dt2 t0 with
              | none => rw [hload2] at h; cases h
              | some m1 =>
                  rw [hload2] at h
                  simp only [] at h
                  have hput2 : UpOk dtc dt2 := stepOk_upOk (putLoop_stepOk hput)
                  have hsave : UpOk dt2 (cacheSaveMetadata dt2 t0
                      { m1 with partFlag := false, queries := [], updated := dt2.now }) := by
                    refine save_upOk (fun _ => ⟨fun _ => rfl, by simp [renderedQueries], by simp⟩) ?_
                    intro m hm hf
                    rfl
                  have hstale : ¬((cacheSaveMetadata dt2 t0
                      { m1 with partFlag := false, queries := [], updated := dt2.now }).now -
                      ({ m1 with partFlag := false, queries := [], updated := dt2.now } : CacheMetadata).updated > 3600) := by
                    simp [cacheSaveMetadata]
                  rw [if_neg hstale] at h
                  cases h
                  exact upOk_trans hput2 hsave
            · rw [Bool.not_eq_true] at hb
              subst hb
              cases h
      · rw [if_neg hprom] at h
        simp only [] at h
        by_cases hstale : dtc.now - m0.updated > 3600
        · rw [if_pos hstale] at h
          cases htbl : lookupAL env.tbl t0 with
          | none => rw [htbl] at h; cases h
          | some hh =>
              rw [htbl] at h
              simp only [] at h
              by_cases htimed : hh.timed = true
              · rw [if_pos htimed] at h
                cases hput : cachePutObjects env.remote fuel
                    ⟨t0, [("time__gte", Val.s (fmtTime m0.updated)),
                          ("time__lt", Val.s (fmtTime dtc.now))]⟩ dtc with
                | none => rw [hput] at h; cases h
                | some r =>
                    rw [hput] at h
                    obtain ⟨bput, dt4⟩ := r
                    by_cases hb : bput = true
                    · subst hb
                      simp only [] at h
                      cases hload4 : cacheLoadMetadata dt4 t0 with
                      | none => rw [hload4] at h; cases h
                      | some m1 =>
                          rw [hload4] at h
                          cases h
                          have hput4 : UpOk dtc dt4 := stepOk_upOk (putLoop_stepOk hput)
                          refine upOk_trans hput4 (save_upOk ?_ ?_)
                          · intro hinv
                            obtain ⟨a, b, c⟩ := hinv t0 m1 hload4
                            exact ⟨a, b, c⟩
                          · intro m hm hf
                            have hl : lookupAL dt4.meta t0 = some m1 := hload4
                            rw [hl] at hm
                            cases hm
                            exact hf
                    · rw [Bool.not_eq_true] at hb
                      subst hb
                      cases h
              · rw [if_neg htimed] at h
                have he := Option.some.inj h
                subst he
                exact ⟨fun t m hm => ⟨m, hm, fun hc => hc⟩, fun hi => hi, rfl, List.prefix_rfl⟩
        · rw [if_neg hstale] at h
          have he := Option.some.inj h
          subst he
          exact ⟨fun t m hm => ⟨m, hm, fun hc => hc⟩, fun hi => hi, rfl, List.prefix_rfl⟩

theorem cacheGetObject_stepOk (dt : DT) (u : Uri) : StepOk dt (cacheGetObject dt u).2 := by
  unfold cacheGetObject
  simp only []
  split
  · exact ⟨fun _ _ hx => hx, fun hx => hx, rfl, List.prefix_rfl⟩
  · split
    · exact ⟨fun _ _ hx => hx, fun hx => hx, rfl, List.prefix_rfl⟩
    · exact ⟨fun _ _ hx => hx, fun hx => hx, rfl, List.prefix_rfl⟩

theorem scanLoop_stepOk {env : Env} {h0 : CacheHints} {q : Uri} : ∀ {keys : List String}
    {dt dt' : DT} {acc rs : List (String × Obj)},
    scanLoop env h0 q keys dt acc = some (rs, dt') → StepOk dt dt' := by
  intro keys
  induction keys with
  | nil =>
      intro dt dt' acc rs h
      unfold scanLoop at h
      cases h
      exact stepOk_rfl dt
  | cons k rest ih =>
      intro dt dt' acc rs h
      unfold scanLoop at h
      simp only [] at h
      have hgo : StepOk dt (cacheGetObject dt ⟨k, []⟩).2 := cacheGetObject_stepOk dt ⟨k, []⟩
      split at h
      next hnone => cases h
      next o hsome =>
        split at h
        next hmatch0 => cases h
        next hmatch =>
          split at h
          next hsk => cases h
          next sk hsk => exact stepOk_trans hgo (ih h)
        next hmatchf => exact stepOk_trans hgo (ih h)

theorem cacheGetObjects_stepOk {env : Env} {dt dt' : DT} {q : Uri} {t : String} {os : List Obj}
    (h : cacheGetObjects env dt q t = some (os, dt')) : StepOk dt dt' := by
  unfold cacheGetObjects at h
  split at h
  next => cases h
  next h0 htbl =>
    simp only [] at h
    split at h
    next hscan => cases h
    next rs dt2 hscan =>
      cases h
      exact scanLoop_stepOk hscan

theorem retrieveJson_recOk {env : Env} {dt dt' : DT} {u : Uri} {o? : Option Obj}
    (h : retrieveJson env dt u = some (o?, dt')) : RecOk dt dt' := by
  unfold retrieveJson at h
  simp only [] at h
  split at h
  next hhas => cases h
  next hhas =>
    -- cache hit: the answer is read through the lookaside cache
    have he := Option.some.inj h
    have hdt : dt' = (cacheGetObject
        { dt with cacheReq := dt.cacheReq + 1, cacheHit := dt.cacheHit + 1 } u).2 :=
      (congrArg Prod.snd he).symm
    subst hdt
    exact stepOk_recOk (stepOk_trans
      (⟨fun _ _ hx => hx, fun hx => hx, rfl, List.prefix_rfl⟩ :
        StepOk dt { dt with cacheReq := dt.cacheReq + 1, cacheHit := dt.cacheHit + 1 })
      (cacheGetObject_stepOk
        { dt with cacheReq := dt.cacheReq + 1, cacheHit := dt.cacheHit + 1 } u))
  next hhas =>
      -- network path
      split at h
      next o hrem =>
        cases hpo : cachePutObject
            { rateLimit { dt with cacheReq := dt.cacheReq + 1 } with
              getCount := (rateLimit { dt with cacheReq := dt.cacheReq + 1 }).getCount + 1,
              evs := (rateLimit { dt with cacheReq := dt.cacheReq + 1 }).evs ++
                [Ev.get ⟨u.uri, u.params⟩] } u.uri o with
        | none => rw [hpo] at h; cases h
        | some dt2 =>
            rw [hpo] at h
            have h2 : (cacheRecordQuery dt2 u (parentUriStr u.uri)).map
                (fun dtx => ((some o : Option Obj), dtx)) = some (o?, dt') := h
            cases hrq : cacheRecordQuery dt2 u (parentUriStr u.uri) with
            | none => rw [hrq] at h2; cases h2
            | some dt3 =>
                rw [hrq] at h2
                have h3 : (some ((some o : Option Obj), dt3) :
                    Option (Option Obj × DT)) = some (o?, dt') := h2
                have he := Option.some.inj h3
                have hdt : dt' = dt3 := (congrArg Prod.snd he).symm
                subst hdt
                refine recOk_trans (stepOk_recOk ?_) (recOk_trans (stepOk_recOk (cachePutObject_stepOk hpo)) (cacheRecordQuery_recOk hrq))
                exact ⟨fun _ _ hx => hx, fun hx => hx, rfl,
                  (List.prefix_append _ _).trans (List.prefix_append _ _)⟩
      next hrem =>
        have he := Option.some.inj h
        have hdt : dt' = _ := (congrArg Prod.snd he).symm
        subst hdt
        exact stepOk_recOk ⟨fun _ _ hx => hx, fun hx => hx, rfl,
          (List.prefix_append _ _).trans (List.prefix_append _ _)⟩
      next hrem1 hrem2 => cases h

theorem retrieve_upOk {env : Env} {fuel : Nat} {u : Uri} {dt dt' : DT} {o? : Option Obj}
    (h : retrieve env fuel u dt = some (o?, dt')) : UpOk dt dt' := by
  unfold retrieve at h
  cases hcu : cacheUpdate env fuel (parentUriStr u.uri) dt with
  | none => rw [hcu] at h; cases h
  | some dt1 =>
      rw [hcu] at h
      exact upOk_trans (cacheUpdate_upOk hcu) (recOk_upOk (retrieveJson_recOk h))

set_option maxHeartbeats 1000000 in

theorem retrieveMulti_upOk {env : Env} {fuel : Nat} {u : Uri} {dt dt' : DT} {os : List Obj}
    (h : retrieveMulti env fuel u dt = some (os, dt')) : UpOk dt dt' := by
  unfold retrieveMulti at h
  split at h
  next => cases h
  next hnn =>
    simp only [] at h
    set dtc := cacheCreate dt u.uri with hdtc
    have hcs : UpOk dt dtc := stepOk_upOk (hdtc ▸ cacheCreate_stepOk dt u.uri)
    refine upOk_trans hcs ?_
    split at h
    next b1 b2 hhq hha =>
      split at h
      next hb =>
        -- disk-answering branch
        cases hcu : cacheUpdate env fuel u.uri
            { dtc with cacheReq := dtc.cacheReq + 1, cacheHit := dtc.cacheHit + 1 } with
        | none => rw [hcu] at h; cases h
        | some dt2 =>
            rw [hcu] at h
            refine upOk_trans (stepOk_upOk (⟨fun _ _ hx => hx, fun hx => hx, rfl,
              List.prefix_rfl⟩ : StepOk dtc
                { dtc with cacheReq := dtc.cacheReq + 1, cacheHit := dtc.cacheHit + 1 })) ?_
            exact upOk_trans (cacheUpdate_upOk hcu) (stepOk_upOk (cacheGetObjects_stepOk h))
      next hb =>
        -- network branch
        split at h
        next bput dt2 hput =>
          cases hrq : cacheRecordQuery dt2 ⟨u.uri, stripTimeParams u.params⟩ u.uri with
          | none => rw [hrq] at h; cases h
          | some dt3 =>
              rw [hrq] at h
              refine upOk_trans (stepOk_upOk (⟨fun _ _ hx => hx, fun hx => hx, rfl,
                List.prefix_rfl⟩ : StepOk dtc
                  { dtc with cacheReq := dtc.cacheReq + 1 })) ?_
              exact upOk_trans (stepOk_upOk (putLoop_stepOk hput))
                (upOk_trans (recOk_upOk (cacheRecordQuery_recOk hrq))
                  (stepOk_upOk (cacheGetObjects_stepOk h)))
        next hput => cases h
    next => cases h

/-- C10: every CacheMetadata record reachable through the public
    operations of the DataTracker (initialization, single-object
    retrieval, queries, passage of time) satisfies the shape invariant:
    a record with partial false has an empty queries list, the rendered
    queries list has no duplicate entry, and no recorded query carries a
    time__gte or time__lt parameter. -/
theorem c10_metadata_shape_invariant (dt : DT) (hr : Reach dt) : MetaInvAll dt := by
  induction hr with
  | base now => intro t m hm; simp [lookupAL] at hm
  | tick n _ ih => intro t m hm; exact ih t m hm
  | stepOne env fuel u hr hrun ih => exact (retrieve_upOk hrun).2.1 ih
  | stepMulti env fuel u hr hrun ih => exact (retrieveMulti_upOk hrun).2.1 ih

/-- C10 (witness): the state reached from a fresh DataTracker by one
    query of the docalias type satisfies the invariant, by the theorem
    applied to its reachability derivation. -/
theorem c10_witness : MetaInvAll c10wState :=
  c10_metadata_shape_invariant c10wState
    (Reach.stepMulti emptyEnv 10 ⟨"/api/v1/doc/docalias/", [("name", Val.s "x")]⟩
      (Reach.base 0) (by rfl))

/-- C5 (counterexample): a state whose group type has partial already
    false but whose metadata is stale (updated two hours ago, timed
    type).  The claim says every subsequent query of the type is
    answered from disk without issuing a collection fetch, yet the query
    run issues a network collection GET (the hourly incremental
    time-range fetch of _cache_update). -/
theorem c5_counterexample :
    (lookupAL c5dt.meta groupT).map CacheMetadata.partFlag = some false ∧
    (retrieveMulti emptyEnv 10 ⟨groupT, []⟩ c5dt).map (fun r => r.2.evs) =
      some [Ev.get ⟨groupT, [("limit", Val.i 100), ("time__gte", Val.s "0"),
        ("time__lt", Val.s "7200")]⟩] := by
  constructor
  · rfl
  · rfl

/-- C5 (amended): once a type has partial false, no public operation of
    the cache (single-object retrieval or query, with any oracle and
    fuel) ever sets it back to true, and every query of that type takes
    the disk-answering branch of _retrieve_multi (freshness update, then
    scan-filter-sort; the per-query network fetch-and-record branch is
    never executed).  The freshness update may still issue an
    incremental time-range fetch when the metadata is stale, which is
    why the claim as stated fails (see the counterexample). -/
theorem c5_promotion_monotonicity (t : String) (dt : DT) (m : CacheMetadata)
    (hm : lookupAL dt.meta t = some m) (hf : m.partFlag = false) :
    (∀ env fuel u o dt', retrieve env fuel u dt = some (o, dt') →
       ∃ m', lookupAL dt'.meta t = some m' ∧ m'.partFlag = false) ∧
    (∀ env fuel u os dt', retrieveMulti env fuel u dt = some (os, dt') →
       ∃ m', lookupAL dt'.meta t = some m' ∧ m'.partFlag = false) ∧
    (∀ env fuel (u : Uri), u.uri = t →
       (u.params.all (fun kv => kv.2 != Val.null)) = true →
       retrieveMulti env fuel u dt =
         (cacheUpdate env fuel t { cacheCreate dt t with
             cacheReq := (cacheCreate dt t).cacheReq + 1,
             cacheHit := (cacheCreate dt t).cacheHit + 1 }).bind
           (fun dt2 => cacheGetObjects env dt2 u t)) := by
  refine ⟨?_, ?_, ?_⟩
  · intro env fuel u o dt' hrun
    obtain ⟨m', hm', hf'⟩ := (retrieve_upOk hrun).1 t m hm
    exact ⟨m', hm', hf' hf⟩
  · intro env fuel u os dt' hrun
    obtain ⟨m', hm', hf'⟩ := (retrieveMulti_upOk hrun).1 t m hm
    exact ⟨m', hm', hf' hf⟩
  · intro env fuel u hut hnn
    subst hut
    have hmc : lookupAL (cacheCreate dt u.uri).meta u.uri = some m := by
      rw [cacheCreate_eq]
      simp [hm]
    unfold retrieveMulti
    rw [if_neg (by simp [hnn])]
    simp only [cacheHasObjects, cacheHasAllObjects, cacheLoadMetadata, hmc]
    simp [hf]

/-- C5 (witness): the concrete stale full-cache state of the
    counterexample, run through a query: the resulting state still has
    partial false, by the amended theorem. -/
theorem c5_witness :
    ∃ m', lookupAL
        (⟨[], [], [(groupT, ⟨0, 7200, false, []⟩)], ["/api/v1/group/", groupT], 7200,
          1, 1, 1, 1, 0, 0,
          [Ev.get ⟨groupT, [("limit", Val.i 100), ("time__gte", Val.s "0"),
            ("time__lt", Val.s "7200")]⟩]⟩ : DT).meta groupT = some m' ∧
      m'.partFlag = false :=
  (c5_promotion_monotonicity groupT c5dt ⟨0, 0, false, []⟩ rfl rfl).2.1
    emptyEnv 10 ⟨groupT, []⟩ [] _ (by rfl)

-- The first GET of a page-fetch loop started on page p is p itself,
-- preceded only by the possible connection rotation of the rate limiter.

theorem putLoop_first_get {remote : Nat → Uri → Resp} {fuel : Nat} {p : Uri} {dt : DT}
    {b : Bool} {dt' : DT} (h : putLoop remote fuel (some p) none none dt = some (b, dt')) :
    ∃ l2, dt'.evs = dt.evs ++
      ((if (dt.httpReq + 1) % 100 = 0 then [Ev.close] else []) ++ (Ev.get p :: l2)) := by
  match fuel with
  | 0 => cases h
  | Nat.succ 0 =>
      unfold putLoop at h
      cases h
  | Nat.succ (Nat.succ f2) =>
      unfold putLoop at h
      unfold putLoop at h
      simp only [] at h
      have hbase : (rateLimit dt).evs ++ [Ev.get p] = dt.evs ++
          ((if (dt.httpReq + 1) % 100 = 0 then [Ev.close] else []) ++ [Ev.get p]) := by
        simp [rateLimit]
      have hfin : ∀ dtf : DT,
          ((rateLimit dt).evs ++ [Ev.get p]) <+: dtf.evs →
          ∃ l2, dtf.evs = dt.evs ++
            ((if (dt.httpReq + 1) % 100 = 0 then [Ev.close] else []) ++ (Ev.get p :: l2)) := by
        intro dtf hpre
        obtain ⟨l2, hl2⟩ := hpre
        refine ⟨l2, ?_⟩
        rw [← hl2, hbase]
        simp
      split at h
      next nxt tot objs heq =>
        split at h
        next => cases h
        next dt2 hpl =>
          exact hfin dt' (((putList_stepOk hpl).2.2.2).trans ((putLoop_stepOk h).2.2.2))
      next o heq => cases h
      next heq =>
        split at h
        next hrt =>
          cases h
          exact hfin _ List.prefix_rfl
        next hrt =>
          refine hfin dt' (List.IsPrefix.trans ?_ ((putLoop_stepOk h).2.2.2))
          exact List.prefix_append _ _
      next heq =>
        cases h
        exact hfin _ List.prefix_rfl
      next code hne1 hne2 hne3 =>
        cases h
        exact hfin _ List.prefix_rfl

/-- C8 (counterexample): a stale partial cache of the timed person type
    (updated two hours before now) and a query not yet recorded.  The
    claim says every queryMany call first runs the freshness logic, so
    the delta [updated, now) would be fetched and updated advanced to
    now; but the network branch of _retrieve_multi never calls
    _cache_update: the run issues only the plain query fetch, no
    time-range GET, and leaves metadata.updated at 0. -/
theorem c8_counterexample :
    lookupAL c8dt.meta personT = some ⟨0, 0, true, []⟩ ∧
    (lookupAL hintsRegistry personT).map CacheHints.timed = some true ∧
    c8dt.now = 7200 ∧
    (retrieveMulti emptyEnv 10 ⟨personT, [("id", Val.i 7)]⟩ c8dt).map
      (fun r => ((lookupAL r.2.meta personT).map CacheMetadata.updated, r.2.evs)) =
      some (some 0, [Ev.get ⟨personT, [("limit", Val.i 100), ("id", Val.i 7)]⟩]) := by
  refine ⟨rfl, rfl, rfl, ?_⟩
  rfl

/-- C8 (amended): the freshness logic runs only on the disk-answering
    path.  (1) In _cache_update on a stale timed type (no promotion
    pending), the fetch issued is exactly the delta range
    [updated, now): its first GET carries time__gte = updated and
    time__lt = now together with limit 100, and the metadata updated
    field is advanced to now.  (2) For a non-timed type _cache_update
    changes neither metadata nor events, however stale.  (3) The network
    branch of _retrieve_multi (query not recorded, type partial) never
    runs the freshness logic: the updated and partial fields of the
    metadata are exactly as before the call. -/
theorem c8_freshness_only_on_disk_path (env : Env) (fuel : Nat) (t : String) (dt : DT)
    (m : CacheMetadata) (hm : lookupAL dt.meta t = some m)
    (hnoprom : (m.partFlag && decide (m.queries.length > 100)) = false) :
    ((dt.now - m.updated > 3600) →
     ∀ h0, lookupAL env.tbl t = some h0 → h0.timed = true →
     ∀ dt', cacheUpdate env fuel t dt = some dt' →
       (∃ m', lookupAL dt'.meta t = some m' ∧ m'.updated = dt.now) ∧
       (∃ l2, dt'.evs = dt.evs ++
         ((if (dt.httpReq + 1) % 100 = 0 then [Ev.close] else []) ++
          (Ev.get ⟨t, [("limit", Val.i 100), ("time__gte", Val.s (fmtTime m.updated)),
            ("time__lt", Val.s (fmtTime dt.now))]⟩ :: l2)))) ∧
    ((dt.now - m.updated > 3600) →
     ∀ h0, lookupAL env.tbl t = some h0 → h0.timed = false →
       cacheUpdate env fuel t dt = some (cacheCreate dt t) ∧
       (cacheCreate dt t).meta = dt.meta ∧ (cacheCreate dt t).evs = dt.evs) ∧
    (∀ (u : Uri) os dt', u.uri = t → m.partFlag = true →
       (renderedQueries m).contains (renderUri ⟨t, stripTimeParams u.params⟩) = false →
       retrieveMulti env fuel u dt = some (os, dt') →
       ∃ m', lookupAL dt'.meta t = some m' ∧ m'.updated = m.updated ∧
         m'.partFlag = m.partFlag) := by
  have hmc : lookupAL (cacheCreate dt t).meta t = some m := by
    rw [cacheCreate_eq]
    simp [hm]
  have hcmeta : (cacheCreate dt t).meta = dt.meta := by
    rw [cacheCreate_eq]
    simp [hm]
  have hcevs : (cacheCreate dt t).evs = dt.evs := by
    rw [cacheCreate_eq]
  have hcnow : (cacheCreate dt t).now = dt.now := by
    rw [cacheCreate_eq]
  have hchttp : (cacheCreate dt t).httpReq = dt.httpReq := by
    rw [cacheCreate_eq]
  refine ⟨?_, ?_, ?_⟩
  · -- stale and timed: the delta fetch
    intro hstale h0 htbl htimed dt' h
    unfold cacheUpdate at h
    simp only [] at h
    rw [show cacheLoadMetadata (cacheCreate dt t) t = some m from hmc] at h
    simp only [] at h
    rw [if_neg (by simp [hnoprom])] at h
    simp only [] at h
    rw [if_pos (by rw [hcnow]; exact hstale), htbl] at h
    simp only [] at h
    rw [if_pos htimed] at h
    cases hput : cachePutObjects env.remote fuel
        ⟨t, [("time__gte", Val.s (fmtTime m.updated)),
             ("time__lt", Val.s (fmtTime (cacheCreate dt t).now))]⟩ (cacheCreate dt t) with
    | none => rw [hput] at h; cases h
    | some r =>
        rw [hput] at h
        obtain ⟨bput, dt4⟩ := r
        by_cases hb : bput = true
        · subst hb
          simp only [] at h
          have hm4 : lookupAL dt4.meta t = some m := (putLoop_stepOk hput).1 t m hmc
          rw [show cacheLoadMetadata dt4 t = some m from hm4] at h
          have h2 : some (cacheSaveMetadata dt4 t
              { created := m.created, updated := dt4.now, partFlag := m.partFlag,
                queries := m.queries }) = some dt' := h
          have he := Option.some.inj h2
          subst he
          constructor
          · refine ⟨⟨m.created, dt4.now, m.partFlag, m.queries⟩,
              by simp [cacheSaveMetadata, lookupAL_updAL_self], ?_⟩
            have hn : dt4.now = dt.now := ((putLoop_stepOk hput).2.2.1).trans hcnow
            simpa using hn
          · obtain ⟨l2, hl2⟩ := putLoop_first_get hput
            refine ⟨l2, ?_⟩
            simp only [cacheSaveMetadata]
            rw [hl2, hcevs, hchttp, hcnow]
        · rw [Bool.not_eq_true] at hb
          subst hb
          cases h
  · -- stale but not timed: nothing happens
    intro hstale h0 htbl htimed
    refine ⟨?_, hcmeta, hcevs⟩
    unfold cacheUpdate
    simp only []
    rw [show cacheLoadMetadata (cacheCreate dt t) t = some m from hmc]
    simp only []
    rw [if_neg (by simp [hnoprom])]
    simp only []
    rw [if_pos (by rw [hcnow]; exact hstale), htbl]
    simp only []
    rw [if_neg (by simp [htimed])]
  · -- the network branch never touches updated or the flag
    intro u os dt' hut hpart hnrec h
    subst hut
    have hnrec2 : renderUri ⟨u.uri, stripTimeParams u.params⟩ ∉ renderedQueries m := by
      simpa using hnrec
    unfold retrieveMulti at h
    split at h
    next => cases h
    next hnn =>
      simp only [] at h
      rw [show cacheHasObjects { cacheCreate dt u.uri with
            cacheReq := (cacheCreate dt u.uri).cacheReq + 1 }
          ⟨u.uri, stripTimeParams u.params⟩ u.uri = some false by
        simp [cacheHasObjects, cacheLoadMetadata, hmc, hnrec2]] at h
      rw [show cacheHasAllObjects { cacheCreate dt u.uri with
            cacheReq := (cacheCreate dt u.uri).cacheReq + 1 } u.uri = some false by
        simp [cacheHasAllObjects, cacheLoadMetadata, hmc, hpart]] at h
      simp only [] at h
      rw [if_neg (by simp)] at h
      cases hput : cachePutObjects env.remote fuel ⟨u.uri, stripTimeParams u.params⟩
          { cacheCreate dt u.uri with cacheReq := (cacheCreate dt u.uri).cacheReq + 1 } with
      | none => rw [hput] at h; cases h
      | some r =>
          rw [hput] at h
          obtain ⟨bput, dt2⟩ := r
          by_cases hb : bput = true
          · subst hb
            have h3 : (cacheRecordQuery dt2 ⟨u.uri, stripTimeParams u.params⟩ u.uri).bind
                (fun dtx => cacheGetObjects env dtx u u.uri) = some (os, dt') := h
            cases hrq : cacheRecordQuery dt2 ⟨u.uri, stripTimeParams u.params⟩ u.uri with
            | none => rw [hrq] at h3; cases h3
            | some dt3 =>
                rw [hrq] at h3
                have h4 : cacheGetObjects env dt3 u u.uri = some (os, dt') := h3
                have hm2 : lookupAL dt2.meta u.uri = some m := (putLoop_stepOk hput).1 _ m hmc
                obtain ⟨m3, hm3, hf3, hu3, _⟩ := (cacheRecordQuery_recOk hrq).1 _ m hm2
                obtain ⟨mf, hmf, hff, huf, _⟩ :=
                  (stepOk_recOk (cacheGetObjects_stepOk h4)).1 _ m3 hm3
                exact ⟨mf, hmf, huf.trans hu3, by rw [hff, hf3]⟩
          · rw [Bool.not_eq_true] at hb
            subst hb
            cases h

/-- C8 (witness): running the freshness logic on the concrete stale
    timed group state advances updated to now and issues the delta-range
    GET, by part one of the amended theorem. -/
theorem c8_witness :
    (∃ m', lookupAL c8wState.meta groupT = some m' ∧ m'.updated = c5dt.now) ∧
    (∃ l2, c8wState.evs = c5dt.evs ++
      ((if (c5dt.httpReq + 1) % 100 = 0 then [Ev.close] else []) ++
       (Ev.get ⟨groupT, [("limit", Val.i 100), ("time__gte", Val.s (fmtTime 0)),
         ("time__lt", Val.s (fmtTime c5dt.now))]⟩ :: l2))) :=
  (c8_freshness_only_on_disk_path emptyEnv 10 groupT c5dt ⟨0, 0, false, []⟩ rfl rfl).1
    (by decide) ⟨[], ["parent", "state"], ["id"], false, true⟩ rfl rfl c8wState (by rfl)

theorem updAL_self_id {α : Type} {l : List (String × α)} {k : String} {v : α}
    (h : lookupAL l k = some v) : updAL l k v = l := by
  induction l with
  | nil => simp [lookupAL] at h
  | cons kv rest ih =>
      obtain ⟨k0, v0⟩ := kv
      by_cases hk : k0 = k
      · subst hk
        simp only [lookupAL, if_pos rfl] at h
        cases h
        simp [updAL]
      · simp only [lookupAL, if_neg hk] at h
        simp [updAL, hk, ih h]

theorem cacheCreate_id {dt : DT} {t : String}
    (hd : dt.dirs.contains t = true) (hs : (lookupAL dt.meta t).isSome = true) :
    cacheCreate dt t = dt := by
  rw [cacheCreate_eq, if_pos hd, if_pos hs]

theorem cacheUpdate_id {env : Env} {fuel : Nat} {t : String} {dt : DT} {m : CacheMetadata}
    (hm : lookupAL dt.meta t = some m)
    (hd : dt.dirs.contains t = true)
    (hnoprom : (m.partFlag && decide (m.queries.length > 100)) = false)
    (hfresh : ¬ (dt.now - m.updated > 3600)) :
    cacheUpdate env fuel t dt = some dt := by
  have hcl : cacheLoadMetadata dt t = some m := hm
  simp only [cacheUpdate, cacheCreate_id hd (by rw [hm]; rfl), hcl]
  rw [if_neg (by simp only [hnoprom]; exact Bool.false_ne_true)]
  simp only []
  rw [if_neg hfresh]

theorem memCons_upd {dt : DT} {k : String} {o : Obj}
    (hmc : MemCons dt) (hdisk : lookupAL dt.disk k = some o) :
    MemCons { dt with mem := updAL dt.mem k o } := by
  intro k' o' h'
  by_cases hk : k = k'
  · subst hk
    rw [lookupAL_updAL_self] at h'
    cases h'
    exact hdisk
  · rw [lookupAL_updAL_ne dt.mem k k' o hk] at h'
    exact hmc k' o' h'

theorem putList_noop (objs : List Obj) : ∀ (dt : DT),
    (∀ o ∈ objs, ∃ k, lookupAL o "resource_uri" = some (Val.sc (Scal.s k)) ∧
        startsWithB k "/" = true ∧ endsWithB k "/" = true ∧
        lookupAL dt.disk k = some o ∧ dt.dirs.contains (parentUriStr k) = true) →
    ∃ dt2, putList dt objs = some dt2 ∧ dt2.disk = dt.disk ∧ dt2.dirs = dt.dirs ∧
      dt2.meta = dt.meta ∧ dt2.getCount = dt.getCount ∧ dt2.evs = dt.evs ∧
      dt2.now = dt.now ∧ (MemCons dt → MemCons dt2) := by
  induction objs with
  | nil =>
      intro dt _
      exact ⟨dt, rfl, rfl, rfl, rfl, rfl, rfl, rfl, id⟩
  | cons o rest ih =>
      intro dt hobjs
      obtain ⟨k, hru, hs, he, hdisk, hdirp⟩ := hobjs o (List.mem_cons_self o rest)
      have hput : cachePutObject dt k o =
          some { dt with disk := updAL dt.disk k o, mem := updAL dt.mem k o } := by
        unfold cachePutObject
        rw [if_neg (by rw [hs, he]; simp), if_pos hdirp]
      rw [updAL_self_id hdisk] at hput
      obtain ⟨dt2, heq, hdk, hdr, hmt, hgc, hev, hnw, hmc⟩ :=
        ih { dt with mem := updAL dt.mem k o }
          (fun o2 ho2 => hobjs o2 (List.mem_cons_of_mem o ho2))
      refine ⟨dt2, ?_, hdk, hdr, hmt, hgc, hev, hnw, ?_⟩
      · unfold putList
        rw [hru]
        show (cachePutObject dt k o).bind (fun dt => putList dt rest) = some dt2
        rw [hput]
        exact heq
      · intro hm0
        exact hmc (memCons_upd hm0 hdisk)

theorem putLoop_noop {remote : Nat → Uri → Resp} {disk0 : List (String × Obj)}
    {dirs0 : List String} (hok : OkNoop remote disk0 dirs0) : ∀ {fuel : Nat}
    {pg : Option Uri} {tot : Option Int} {rt : Option Nat} {dt : DT} {b : Bool} {dt' : DT},
    dt.disk = disk0 → dt.dirs = dirs0 →
    putLoop remote fuel pg tot rt dt = some (b, dt') →
    b = true ∧ dt'.disk = disk0 ∧ dt'.dirs = dirs0 ∧ dt'.meta = dt.meta ∧
      dt'.now = dt.now ∧ (MemCons dt → MemCons dt') := by
  intro fuel
  induction fuel with
  | zero => intro pg tot rt dt b dt' _ _ h; cases h
  | succ fuel ih =>
      intro pg tot rt dt b dt' hdk hdr h
      match pg with
      | none =>
          unfold putLoop at h
          cases h
          exact ⟨rfl, hdk, hdr, rfl, rfl, id⟩
      | some page =>
          match rt with
          | none =>
              unfold putLoop at h
              have hdk2 : (rateLimit dt).disk = disk0 := hdk
              have hdr2 : (rateLimit dt).dirs = dirs0 := hdr
              obtain ⟨hb, h1, h2, h3, h4, h5⟩ := ih hdk2 hdr2 h
              exact ⟨hb, h1, h2, h3, h4, h5⟩
          | some rtv =>
              unfold putLoop at h
              simp only [] at h
              cases hrem : remote dt.getCount page with
              | ok next tot2 objs =>
                  rw [hrem] at h
                  simp only [] at h
                  have hfx := hok dt.getCount page
                  rw [hrem] at hfx
                  obtain ⟨dt2, hpl, hdk2, hdr2, hmt2, hgc2, hev2, hnw2, hmc2⟩ :=
                    putList_noop objs
                      { dt with getCount := dt.getCount + 1
                              , evs := dt.evs ++ [Ev.get page] }
                      (by intro o ho
                          obtain ⟨k, h1, h2, h3, h4, h5⟩ := hfx o ho
                          refine ⟨k, h1, h2, h3, ?_, ?_⟩
                          · show lookupAL dt.disk k = some o
                            rw [hdk]; exact h4
                          · show dt.dirs.contains (parentUriStr k) = true
                            rw [hdr]; exact h5)
                  rw [hpl] at h
                  have h2 : putLoop remote fuel next (some tot2) none dt2 = some (b, dt') := h
                  obtain ⟨hb, hdk3, hdr3, hmt3, hnw3, hmc3⟩ :=
                    ih (hdk2.trans hdk) (hdr2.trans hdr) h2
                  refine ⟨hb, hdk3, hdr3, hmt3.trans hmt2, hnw3.trans hnw2, ?_⟩
                  intro hm
                  exact hmc3 (hmc2 hm)
              | okSingle o =>
                  have hfx := hok dt.getCount page
                  rw [hrem] at hfx
                  exact hfx.elim
              | err c =>
                  have hfx := hok dt.getCount page
                  rw [hrem] at hfx
                  exact hfx.elim

theorem cacheGetObject_memHit {dt : DT} {k : String} {o : Obj}
    (hm : lookupAL dt.mem k = some o) :
    cacheGetObject dt ⟨k, []⟩ =
      (some o, { dt with memReq := dt.memReq + 1, memHit := dt.memHit + 1 }) := by
  unfold cacheGetObject
  simp only [hm]

theorem cacheGetObject_diskHit {dt : DT} {k : String} {o : Obj}
    (hm : lookupAL dt.mem k = none) (hd : lookupAL dt.disk k = some o) :
    cacheGetObject dt ⟨k, []⟩ =
      (some o, { dt with memReq := dt.memReq + 1, mem := updAL dt.mem k o }) := by
  unfold cacheGetObject
  simp only [hm, hd]

theorem cacheGetObject_miss {dt : DT} {k : String}
    (hm : lookupAL dt.mem k = none) (hd : lookupAL dt.disk k = none) :
    cacheGetObject dt ⟨k, []⟩ = (none, { dt with memReq := dt.memReq + 1 }) := by
  unfold cacheGetObject
  simp only [hm, hd]

theorem scanLoop_pure (env : Env) (h0 : CacheHints) (q : Uri) : ∀ (keys : List String)
    (dt : DT) (acc : List (String × Obj)), MemCons dt →
    ∃ dt2, dt2.disk = dt.disk ∧ dt2.meta = dt.meta ∧ dt2.now = dt.now ∧
      dt2.dirs = dt.dirs ∧ MemCons dt2 ∧
      scanLoop env h0 q keys dt acc =
        (pureScan env h0 q dt.disk keys).map (fun rs => (acc ++ rs, dt2)) := by
  intro keys
  induction keys with
  | nil =>
      intro dt acc hmc
      refine ⟨dt, rfl, rfl, rfl, rfl, hmc, ?_⟩
      simp [scanLoop, pureScan]
  | cons k rest ih =>
      intro dt acc hmc
      have hstep : ∀ (o : Obj) (dtg : DT),
          cacheGetObject dt ⟨k, []⟩ = (some o, dtg) →
          lookupAL dt.disk k = some o →
          dtg.disk = dt.disk → dtg.meta = dt.meta → dtg.now = dt.now →
          dtg.dirs = dt.dirs → MemCons dtg →
          ∃ dt2, dt2.disk = dt.disk ∧ dt2.meta = dt.meta ∧ dt2.now = dt.now ∧
            dt2.dirs = dt.dirs ∧ MemCons dt2 ∧
            scanLoop env h0 q (k :: rest) dt acc =
              (pureScan env h0 q dt.disk (k :: rest)).map (fun rs => (acc ++ rs, dt2)) := by
        intro o dtg hgo hd hg1 hg2 hg3 hg4 hmcg
        have hunf : scanLoop env h0 q (k :: rest) dt acc =
            (match cacheObjMatches env o q with
             | none => none
             | some true =>
                 match sortKeyOf h0 o with
                 | none => none
                 | some sk => scanLoop env h0 q rest dtg (acc ++ [(sk, o)])
             | some false => scanLoop env h0 q rest dtg acc) := by
          rw [scanLoop]
          rw [hgo]
        have hpunf : pureScan env h0 q dt.disk (k :: rest) =
            (match cacheObjMatches env o q with
             | none => none
             | some true => (sortKeyOf h0 o).bind (fun sk =>
                 (pureScan env h0 q dt.disk rest).map (fun rs => (sk, o) :: rs))
             | some false => pureScan env h0 q dt.disk rest) := by
          rw [pureScan]
          rw [hd]
        rw [hunf, hpunf]
        cases hcm : cacheObjMatches env o q with
        | none => exact ⟨dt, rfl, rfl, rfl, rfl, hmc, rfl⟩
        | some bmatch =>
            cases bmatch with
            | true =>
                cases hsk : sortKeyOf h0 o with
                | none => exact ⟨dt, rfl, rfl, rfl, rfl, hmc, rfl⟩
                | some sk =>
                    obtain ⟨dt2, h1, h2, h3, h4, h5, heq⟩ :=
                      ih dtg (acc ++ [(sk, o)]) hmcg
                    refine ⟨dt2, h1.trans hg1, h2.trans hg2, h3.trans hg3,
                      h4.trans hg4, h5, ?_⟩
                    simp only []
                    rw [heq, hg1]
                    cases hps : pureScan env h0 q dt.disk rest with
                    | none => rfl
                    | some rs => simp
            | false =>
                obtain ⟨dt2, h1, h2, h3, h4, h5, heq⟩ := ih dtg acc hmcg
                refine ⟨dt2, h1.trans hg1, h2.trans hg2, h3.trans hg3,
                  h4.trans hg4, h5, ?_⟩
                simp only []
                rw [heq, hg1]
      cases hm : lookupAL dt.mem k with
      | some o =>
          exact hstep o _ (cacheGetObject_memHit hm) (hmc k o hm) rfl rfl rfl rfl hmc
      | none =>
          cases hd : lookupAL dt.disk k with
          | some o =>
              exact hstep o _ (cacheGetObject_diskHit hm hd) hd rfl rfl rfl rfl
                (memCons_upd hmc hd)
          | none =>
              refine ⟨dt, rfl, rfl, rfl, rfl, hmc, ?_⟩
              have hunf : scanLoop env h0 q (k :: rest) dt acc = none := by
                rw [scanLoop]
                rw [cacheGetObject_miss hm hd]
              have hpunf : pureScan env h0 q dt.disk (k :: rest) = none := by
                rw [pureScan]
                rw [hd]
              rw [hunf, hpunf]
              rfl

theorem cacheGetObjects_pure (env : Env) (dt : DT) (q : Uri) (t : String) (hmc : MemCons dt) :
    ∃ dt2, dt2.disk = dt.disk ∧ dt2.meta = dt.meta ∧ dt2.now = dt.now ∧
      dt2.dirs = dt.dirs ∧ MemCons dt2 ∧
      cacheGetObjects env dt q t =
        (pureGetObjects env dt.disk q t).map (fun os => (os, dt2)) := by
  cases htbl : lookupAL env.tbl t with
  | none =>
      refine ⟨dt, rfl, rfl, rfl, rfl, hmc, ?_⟩
      unfold cacheGetObjects pureGetObjects
      rw [htbl]
      rfl
  | some h0 =>
      obtain ⟨dt2, h1, h2, h3, h4, h5, heq⟩ := scanLoop_pure env h0 q
        ((dt.disk.map Prod.fst).filter (fun k => parentUriStr k = t)) dt [] hmc
      refine ⟨dt2, h1, h2, h3, h4, h5, ?_⟩
      unfold cacheGetObjects pureGetObjects
      rw [htbl]
      simp only []
      rw [heq]
      cases hps : pureScan env h0 q dt.disk
          ((dt.disk.map Prod.fst).filter (fun k => parentUriStr k = t)) with
      | none => rfl
      | some rs => simp

theorem all_sub_filter {α : Type} {l : List α} {p : α → Bool} {f : α → Bool}
    (h : l.all f = true) : (l.filter p).all f = true := by
  rw [List.all_eq_true] at h ⊢
  intro x hx
  exact h x (List.mem_of_mem_filter hx)

theorem contains_filter_ne_self {l : List Uri} {s : String} :
    ((l.filter (fun qq => renderUri qq != s)).map renderUri).contains s = false := by
  induction l with
  | nil => rfl
  | cons q rest ih =>
      by_cases hq : renderUri q = s
      · simp only [List.filter_cons]
        rw [if_neg (by simp [hq])]
        exact ih
      · simp only [List.filter_cons]
        rw [if_pos (by simp [hq])]
        simp only [List.map_cons]
        rw [List.contains_cons]
        simp [hq, ih, Ne.symm hq]

theorem retrieveMulti_diskBranch (env : Env) (fuel : Nat) {u : Uri} {dt : DT}
    {m : CacheMetadata}
    (hnn : u.params.all (fun kv => kv.2 != Val.null) = true)
    (hm : lookupAL dt.meta u.uri = some m)
    (hdir : dt.dirs.contains u.uri = true)
    (hrec : (renderedQueries m).contains (renderUri ⟨u.uri, stripTimeParams u.params⟩) = true) :
    retrieveMulti env fuel u dt =
      (cacheUpdate env fuel u.uri
          { dt with cacheReq := dt.cacheReq + 1, cacheHit := dt.cacheHit + 1 }).bind
        (fun dtx => cacheGetObjects env dtx u u.uri) := by
  unfold retrieveMulti
  rw [if_neg (by rw [hnn]; simp)]
  simp only []
  rw [cacheCreate_id hdir (by rw [hm]; rfl)]
  have hho : cacheHasObjects { dt with cacheReq := dt.cacheReq + 1 }
      ⟨u.uri, stripTimeParams u.params⟩ u.uri = some true := by
    unfold cacheHasObjects cacheLoadMetadata
    show (lookupAL dt.meta u.uri).map _ = some true
    rw [hm]
    show some ((renderedQueries m).contains (renderUri ⟨u.uri, stripTimeParams u.params⟩)) = some true
    rw [hrec]
  have hha : cacheHasAllObjects { dt with cacheReq := dt.cacheReq + 1 } u.uri
      = some (!m.partFlag) := by
    unfold cacheHasAllObjects cacheLoadMetadata
    show (lookupAL dt.meta u.uri).map _ = _
    rw [hm]
    rfl
  rw [hho, hha]
  rfl

theorem retrieveMulti_netBranch (env : Env) (fuel : Nat) {u : Uri} {dt : DT}
    {m : CacheMetadata}
    (hnn : u.params.all (fun kv => kv.2 != Val.null) = true)
    (hm : lookupAL dt.meta u.uri = some m)
    (hdir : dt.dirs.contains u.uri = true)
    (hflag : m.partFlag = true)
    (hnrec : (renderedQueries m).contains (renderUri ⟨u.uri, stripTimeParams u.params⟩) = false) :
    retrieveMulti env fuel u dt =
      (match cachePutObjects env.remote fuel ⟨u.uri, stripTimeParams u.params⟩
          { dt with cacheReq := dt.cacheReq + 1 } with
       | some (true, dtp) =>
           (cacheRecordQuery dtp ⟨u.uri, stripTimeParams u.params⟩ u.uri).bind
             (fun dtx => cacheGetObjects env dtx u u.uri)
       | _ => none) := by
  unfold retrieveMulti
  rw [if_neg (by rw [hnn]; simp)]
  simp only []
  rw [cacheCreate_id hdir (by rw [hm]; rfl)]
  have hho : cacheHasObjects { dt with cacheReq := dt.cacheReq + 1 }
      ⟨u.uri, stripTimeParams u.params⟩ u.uri = some false := by
    unfold cacheHasObjects cacheLoadMetadata
    show (lookupAL dt.meta u.uri).map _ = some false
    rw [hm]
    show some ((renderedQueries m).contains (renderUri ⟨u.uri, stripTimeParams u.params⟩)) = some false
    rw [hnrec]
  have hha : cacheHasAllObjects { dt with cacheReq := dt.cacheReq + 1 } u.uri
      = some false := by
    unfold cacheHasAllObjects cacheLoadMetadata
    show (lookupAL dt.meta u.uri).map _ = _
    rw [hm]
    show some (!m.partFlag) = some false
    rw [hflag]
    rfl
  rw [hho, hha]
  rfl

theorem stripTimeParams_idem (ps : List (String × Val)) :
    stripTimeParams (stripTimeParams ps) = stripTimeParams ps := by
  unfold stripTimeParams
  rw [List.filter_filter]
  simp [Bool.and_self]

/-- C1: query-answer path equivalence of _retrieve_multi (lines 2389-2410).
    Fix a query URI u on a resource type whose metadata is present, partial,
    fresh, not promotable, with the (time-stripped) query recorded, the
    memcache consistent with the object store, and a remote every response of
    which only re-delivers objects already stored identically on disk (the
    replay situation after a first fetch).  Then the call on the state as-is
    (first branch: answered from the cache) and the call on the state with
    that query erased from metadata.queries (second branch: network fetch,
    store writes, query re-recorded) return the SAME object sequence out,
    computed by the same pure scan-filter-sort of the on-disk store. -/
theorem c1_query_answer_equivalence (env : Env) (fuel : Nat) (u : Uri) (dt : DT)
    (m : CacheMetadata) (out : List Obj)
    (hnn : u.params.all (fun kv => kv.2 != Val.null) = true)
    (hm : lookupAL dt.meta u.uri = some m)
    (hflag : m.partFlag = true)
    (hq100 : decide (m.queries.length > 100) = false)
    (hfresh : ¬ (dt.now - m.updated > 3600))
    (hdir : dt.dirs.contains u.uri = true)
    (hq : subIn "?" u.uri = false)
    (hrec : (renderedQueries m).contains (renderUri ⟨u.uri, stripTimeParams u.params⟩) = true)
    (hmem : MemCons dt)
    (hok : OkNoop env.remote dt.disk dt.dirs)
    (hterm : cachePutObjects env.remote fuel ⟨u.uri, stripTimeParams u.params⟩
        { dt with meta := updAL dt.meta u.uri ({ m with queries := m.queries.filter (fun qq => renderUri qq != renderUri ⟨u.uri, stripTimeParams u.params⟩) }), cacheReq := dt.cacheReq + 1 } ≠ none)
    (hans : pureGetObjects env dt.disk u u.uri = some out) :
    (∃ dtA, retrieveMulti env fuel u dt = some (out, dtA)) ∧
    (∃ dtB, retrieveMulti env fuel u
        { dt with meta := updAL dt.meta u.uri ({ m with queries := m.queries.filter (fun qq => renderUri qq != renderUri ⟨u.uri, stripTimeParams u.params⟩) }) } =
      some (out, dtB)) := by
  constructor
  · have hup : cacheUpdate env fuel u.uri
        { dt with cacheReq := dt.cacheReq + 1, cacheHit := dt.cacheHit + 1 } =
        some { dt with cacheReq := dt.cacheReq + 1, cacheHit := dt.cacheHit + 1 } :=
      cacheUpdate_id hm hdir (by rw [hflag, Bool.true_and]; exact hq100) hfresh
    obtain ⟨dt2, g1, g2, g3, g4, g5, geq⟩ := cacheGetObjects_pure env
      { dt with cacheReq := dt.cacheReq + 1, cacheHit := dt.cacheHit + 1 } u u.uri hmem
    refine ⟨dt2, ?_⟩
    rw [retrieveMulti_diskBranch env fuel hnn hm hdir hrec, hup]
    show cacheGetObjects env
        { dt with cacheReq := dt.cacheReq + 1, cacheHit := dt.cacheHit + 1 } u u.uri =
      some (out, dt2)
    rw [geq]
    have hans2 : pureGetObjects env
        ({ dt with cacheReq := dt.cacheReq + 1, cacheHit := dt.cacheHit + 1 } : DT).disk
        u u.uri = some out := hans
    rw [hans2]
    rfl
  · set mf : CacheMetadata := { m with queries := m.queries.filter (fun qq => renderUri qq != renderUri ⟨u.uri, stripTimeParams u.params⟩) } with hmf
    set dtn : DT := { dt with meta := updAL dt.meta u.uri mf } with hdtn
    have hm2 : lookupAL dtn.meta u.uri = some mf := by
      rw [hdtn]
      exact lookupAL_updAL_self dt.meta u.uri mf
    have hdir2 : dtn.dirs.contains u.uri = true := hdir
    have hflag2 : mf.partFlag = true := hflag
    have hnrec : (renderedQueries mf).contains
        (renderUri ⟨u.uri, stripTimeParams u.params⟩) = false := contains_filter_ne_self
    rw [retrieveMulti_netBranch env fuel hnn hm2 hdir2 hflag2 hnrec]
    cases hres : cachePutObjects env.remote fuel ⟨u.uri, stripTimeParams u.params⟩
        { dtn with cacheReq := dtn.cacheReq + 1 } with
    | none => exact absurd hres hterm
    | some res =>
        obtain ⟨b0, dtp⟩ := res
        have hdk0 : ({ dtn with cacheReq := dtn.cacheReq + 1 } : DT).disk = dt.disk := rfl
        have hdr0 : ({ dtn with cacheReq := dtn.cacheReq + 1 } : DT).dirs = dt.dirs := rfl
        obtain ⟨hb0, hdkp, hdrp, hmtp, hnwp, hmcp⟩ := putLoop_noop hok hdk0 hdr0 hres
        subst hb0
        have hall : (stripTimeParams u.params).all (fun kv => kv.2 != Val.null) = true :=
          all_sub_filter hnn
        have hmet2 : cacheLoadMetadata dtp u.uri = some mf := by
          show lookupAL dtp.meta u.uri = some mf
          rw [hmtp]
          exact lookupAL_updAL_self dt.meta u.uri mf
        have hrq : ∃ dtq, cacheRecordQuery dtp ⟨u.uri, stripTimeParams u.params⟩ u.uri =
            some dtq ∧ dtq.disk = dtp.disk ∧ dtq.mem = dtp.mem := by
          refine ⟨cacheSaveMetadata dtp u.uri
            { mf with queries := mf.queries ++
                [⟨u.uri, stripTimeParams (stripTimeParams u.params)⟩] }, ?_, rfl, rfl⟩
          unfold cacheRecordQuery
          simp only []
          rw [if_neg (by rw [hq]; exact Bool.false_ne_true)]
          rw [if_neg (by rw [hall]; simp)]
          rw [hmet2]
          simp only []
          rw [if_pos hflag2]
          rw [if_neg (by rw [stripTimeParams_idem, hnrec]; exact Bool.false_ne_true)]
        obtain ⟨dtq, hrqe, hqdk, hqmm⟩ := hrq
        have hmcp2 : MemCons dtp := hmcp hmem
        have hmcq : MemCons dtq := by
          intro k o hk
          rw [hqdk]
          apply hmcp2 k o
          rw [← hqmm]
          exact hk
        obtain ⟨dt3, g1, g2, g3, g4, g5, geq⟩ := cacheGetObjects_pure env dtq u u.uri hmcq
        refine ⟨dt3, ?_⟩
        show (cacheRecordQuery dtp ⟨u.uri, stripTimeParams u.params⟩ u.uri).bind
            (fun dtx => cacheGetObjects env dtx u u.uri) = some (out, dt3)
        rw [hrqe]
        show cacheGetObjects env dtq u u.uri = some (out, dt3)
        rw [geq]
        have hdisk3 : dtq.disk = dt.disk := by rw [hqdk, hdkp]
        rw [hdisk3, hans]
        rfl

theorem c1_witness :
    (∃ dtA, retrieveMulti c1env 5 c1u c1dt = some ([c1obj], dtA)) ∧
    (∃ dtB, retrieveMulti c1env 5 c1u
        { c1dt with meta := updAL c1dt.meta c1u.uri ({ c1m with queries := c1m.queries.filter (fun qq => renderUri qq != renderUri ⟨c1u.uri, stripTimeParams c1u.params⟩) }) } =
      some ([c1obj], dtB)) :=
  c1_query_answer_equivalence c1env 5 c1u c1dt c1m [c1obj]
    rfl rfl rfl rfl (by decide) rfl rfl rfl
    (fun k o hk => Option.noConfusion hk)
    (by intro i p o ho
        simp only [List.mem_singleton] at ho
        subst ho
        exact ⟨"/api/v1/doc/docalias/1/", rfl, rfl, rfl, rfl, rfl⟩)
    (by intro hcon
        have hs : (cachePutObjects c1env.remote 5 ⟨c1u.uri, stripTimeParams c1u.params⟩
            { c1dt with meta := updAL c1dt.meta c1u.uri ({ c1m with queries := c1m.queries.filter (fun qq => renderUri qq != renderUri ⟨c1u.uri, stripTimeParams c1u.params⟩) }), cacheReq := c1dt.cacheReq + 1 }).isSome = true := rfl
        rw [hcon] at hs
        cases hs)
    rfl
